import Mathlib

/-
Verification of the field type system and field-path resolution layer of
exchangelib (src/exchangelib/fields.py), via a shallow embedding in Lean 4.

Conventions of the embedding:
- Python `None` is `Option.none`; a value `v` is `some v`.
- Server builds (the opaque `Build` order) are modelled as `Nat`; a `Version`
  is reduced to its build, so a version argument is `Option Nat` (with `none`
  for Python `None`).
- Raised exceptions are modelled with `Except`: `ErrorInvalidServerVersion`
  becomes `CleanErr.unsupportedVersion`, `TypeError` becomes type errors, and
  the various `ValueError`s become dedicated constructors.  Error message
  strings are dropped; only the error kind is kept.
- XML elements are a tag, optional text, attributes and children.  The
  `t:`-to-`{TNS}` prefix resolution done by `create_element`/`response_tag`
  (util.py, outside this module) is dropped: tags are compared by their local
  name, so `request_tag` and `response_tag` coincide on the local name.
- `log.warning`/`log.info` side effects are modelled by returning a list of
  log records alongside the decoded value.
- Python truthiness on optional strings (`if label:`) is `none` or `some ""`
  being falsy, which the embedding makes explicit.
-/

namespace Exchangelib

/-! ## Version gate (Field.supports_version, Choice) -/

/-- Model of `Field.supports_version`: true when `supported_from` is unset or
the version argument is absent, else compares builds. -/
def supportsVersion (supportedFrom : Option Nat) (version : Option Nat) : Bool :=
  match supportedFrom, version with
  | none, _ => true
  | _, none => true
  | some b, some v => b ≤ v

/-- Model of `Choice`: a value with an optional `supported_from` build. -/
structure ChoiceM where
  value : String
  supportedFrom : Option Nat := none
deriving DecidableEq

/-- Model of `Choice.supports_version`. -/
def choiceSupports (c : ChoiceM) (version : Option Nat) : Bool :=
  supportsVersion c.supportedFrom version

/-- Model of `ChoiceField.supported_choices`: the values of the choices that
support `version`.  The Python code builds a set; the model keeps the list
order of the declared choices. -/
def supportedChoiceValues (choices : List ChoiceM) (version : Option Nat) : List String :=
  (choices.filter (fun c => choiceSupports c version)).map (fun c => c.value)

/-! ## Errors and log records -/

/-- Error kinds raised by the `clean` methods. -/
inductive CleanErr where
  | unsupportedVersion
  | missingRequired
  | invalidType
  | rangeBelow
  | rangeAbove
  | invalidEnumLabel
  | emptyList
  | dupEntries
  | naiveDatetime
  | lengthExceeded
  | invalidChoice
  | pyTypeError
deriving DecidableEq

/-- Decidable equality of `Except` results, used to evaluate the models on
concrete inputs. -/
instance exceptDecEq {ε α : Type} [DecidableEq ε] [DecidableEq α] :
    DecidableEq (Except ε α)
  | .error a, .error b =>
    if h : a = b then .isTrue (by rw [h])
    else .isFalse (by intro hh; injection hh with h2; exact h h2)
  | .error _, .ok _ => .isFalse (by intro hh; exact Except.noConfusion hh)
  | .ok _, .error _ => .isFalse (by intro hh; exact Except.noConfusion hh)
  | .ok a, .ok b =>
    if h : a = b then .isTrue (by rw [h])
    else .isFalse (by intro hh; injection hh with h2; exact h h2)

/-- Log levels used by decode: `log.warning` for unparsable scalars and
`log.info` for recovered naive datetimes. -/
inductive LogLevel where
  | warning
  | information
deriving DecidableEq

/-- A diagnostic log record carrying the raw wire text and the field name, as
in `log.warning("Cannot convert value '%s' on field '%s' ...", val, self.name)`. -/
structure LogRec where
  level : LogLevel
  raw : String
  fieldName : String
deriving DecidableEq

/-! ## Wire elements -/

/-- A wire XML element: tag (local name), optional text, attributes, children. -/
inductive XmlElem where
  | node (tag : String) (text : Option String) (attrs : List (String × String))
      (children : List XmlElem)

/-- The tag of an element. -/
def XmlElem.tag : XmlElem → String
  | .node t _ _ _ => t

/-- The text of an element. -/
def XmlElem.text : XmlElem → Option String
  | .node _ tx _ _ => tx

/-- The attributes of an element. -/
def XmlElem.attrs : XmlElem → List (String × String)
  | .node _ _ a _ => a

/-- The children of an element. -/
def XmlElem.children : XmlElem → List XmlElem
  | .node _ _ _ c => c

/-- Model of `elem.find(self.response_tag())` followed by
`val = None if field_elem is None else field_elem.text or None`: the missing
element, missing text and empty text all collapse to `none`. -/
def childText (uriTail : String) (elem : XmlElem) : Option String :=
  match elem.children.find? (fun e => e.tag = uriTail) with
  | none => none
  | some fe =>
    match fe.text with
    | none => none
    | some t => if t = "" then none else some t

/-- Model of `create_element(self.request_tag())` plus `set_xml_value` setting
text: an element named by the field URI local name carrying the given text. -/
def mkFieldElem (uriTail : String) (text : String) : XmlElem :=
  .node uriTail (some text) [] []

/-- A parent element wrapping a single encoded field element, standing for the
item element that `from_xml` receives. -/
def wrapParent (e : XmlElem) : XmlElem :=
  .node "Item" none [] [e]

/-! ## Numeric text (value_to_xml_text / int(...) are outside this module)

`value_to_xml_text` (util.py) and the `int` constructor are not part of
fields.py.  Modelled from the spec: integers are serialized as "numeric text"
and decoded by parsing numeric text; the model prints canonical decimal
numerals and parses an optional sign followed by decimal digits. -/

def digitChars : List Char := ['0', '1', '2', '3', '4', '5', '6', '7', '8', '9']

/-- The decimal digit character for `d < 10`. -/
def digitChar (d : Nat) : Char := digitChars.getD d '0'

/-- Parse one decimal digit character; the index in `digitChars` is its value. -/
def parseDigit (c : Char) : Option Nat := digitChars.findIdx? (fun c2 => c2 = c)

/-- Accumulating decimal parser: fails on the first non-digit character. -/
def parseNatGo : Nat → List Char → Option Nat
  | acc, [] => some acc
  | acc, c :: cs =>
    match parseDigit c with
    | some d => parseNatGo (acc * 10 + d) cs
    | none => none

/-- Parse a nonempty all-digit character list as a natural number. -/
def parseNatChars (l : List Char) : Option Nat :=
  match l with
  | [] => none
  | _ :: _ => parseNatGo 0 l

/-- Canonical decimal digits of a natural number (most significant first). -/
def natDigits (n : Nat) : List Char :=
  if _h : n < 10 then [digitChar n] else natDigits (n / 10) ++ [digitChar (n % 10)]
termination_by n
decreasing_by
  exact Nat.div_lt_self (by omega) (by omega)

/-- The power of ten one past the magnitude of `n`; auxiliary to reason about
`natDigits`. -/
def mag (n : Nat) : Nat :=
  if _h : n < 10 then 10 else 10 * mag (n / 10)
termination_by n
decreasing_by
  exact Nat.div_lt_self (by omega) (by omega)

/-- Canonical decimal numeral of an integer. -/
def intDigits (v : Int) : List Char :=
  if v < 0 then '-' :: natDigits (-v).toNat else natDigits v.toNat

/-- Modelled from the spec: decoding "numeric text" — an optional sign followed
by decimal digits (the `int(val)` call of `IntegerField.from_xml`; the `int`
constructor itself is outside this module). -/
def parseIntChars (l : List Char) : Option Int :=
  match l with
  | [] => none
  | c :: rest =>
    if c = '-' then (parseNatChars rest).map (fun n => -(n : Int))
    else if c = '+' then (parseNatChars rest).map (fun n => (n : Int))
    else (parseNatChars (c :: rest)).map (fun n => (n : Int))

/-! ## Base64 (the `base64` stdlib module used by Base64Field)

`base64.b64encode`/`b64decode` are stdlib collaborators of fields.py.
Modelled from the spec: the binary kind "base64-encode bytes" / "base64-decode
text", realized by standard RFC 4648 base64 over byte lists. -/

/-- The base64 alphabet. -/
def b64Alphabet : List Char :=
  ['A', 'B', 'C', 'D', 'E', 'F', 'G', 'H', 'I', 'J', 'K', 'L', 'M',
   'N', 'O', 'P', 'Q', 'R', 'S', 'T', 'U', 'V', 'W', 'X', 'Y', 'Z',
   'a', 'b', 'c', 'd', 'e', 'f', 'g', 'h', 'i', 'j', 'k', 'l', 'm',
   'n', 'o', 'p', 'q', 'r', 's', 't', 'u', 'v', 'w', 'x', 'y', 'z',
   '0', '1', '2', '3', '4', '5', '6', '7', '8', '9', '+', '/']

/-- The alphabet character of a sextet. -/
def encChar6 (n : Nat) : Char := b64Alphabet.getD n 'A'

/-- The sextet of an alphabet character. -/
def decChar6 (c : Char) : Option Nat := b64Alphabet.findIdx? (fun c2 => c2 = c)

/-- Base64-encode a byte list (bytes as naturals below 256). -/
def b64encode : List Nat → List Char
  | [] => []
  | [b0] => [encChar6 (b0 / 4), encChar6 (b0 % 4 * 16), '=', '=']
  | [b0, b1] => [encChar6 (b0 / 4), encChar6 (b0 % 4 * 16 + b1 / 16),
      encChar6 (b1 % 16 * 4), '=']
  | b0 :: b1 :: b2 :: rest =>
    encChar6 (b0 / 4) :: encChar6 (b0 % 4 * 16 + b1 / 16) ::
      encChar6 (b1 % 16 * 4 + b2 / 64) :: encChar6 (b2 % 64) :: b64encode rest

/-- Base64-decode a character list; `none` models the `binascii.Error` raised
on malformed input. -/
def b64decode : List Char → Option (List Nat)
  | [] => some []
  | a :: b :: c :: d :: rest =>
    match decChar6 a, decChar6 b with
    | some sa, some sb =>
      if c = '=' then
        if d = '=' ∧ rest = [] then some [sa * 4 + sb / 16] else none
      else
        match decChar6 c with
        | some sc =>
          if d = '=' then
            if rest = [] then some [sa * 4 + sb / 16, sb % 16 * 16 + sc / 4] else none
          else
            match decChar6 d with
            | some sd =>
              (b64decode rest).map
                (fun bs => (sa * 4 + sb / 16) :: (sb % 16 * 16 + sc / 4) ::
                  (sc % 4 * 64 + sd) :: bs)
            | none => none
        | none => none
    | _, _ => none
  | _ => none

/-! ## Date text (EWSDate.from_string is outside this module)

Modelled from the spec: the date kind serializes as "ISO-ish text per the
underlying date serialization" and decode parses it, with parse failure
possible.  The model uses `YYYY-MM-DD` with zero padding and a parser that
splits on `-` and range-checks month and day. -/

/-- A calendar date value (the EWSDate native type). -/
structure DateM where
  year : Nat
  month : Nat
  day : Nat
deriving DecidableEq

/-- Left-pad a character list with zeros to width `k`. -/
def padZeros (k : Nat) (l : List Char) : List Char :=
  List.replicate (k - l.length) '0' ++ l

/-- ISO date text of a date value. -/
def dateText (dt : DateM) : List Char :=
  padZeros 4 (natDigits dt.year) ++ '-' ::
    (padZeros 2 (natDigits dt.month) ++ '-' :: padZeros 2 (natDigits dt.day))

/-- Split a character list on a single-character delimiter (accumulator form). -/
def cgo (sep : Char) (acc : List Char) : List Char → List (List Char)
  | [] => [acc]
  | c :: cs => if c = sep then acc :: cgo sep [] cs else cgo sep (acc ++ [c]) cs

/-- Split a character list on a single-character delimiter. -/
def splitChar (sep : Char) (l : List Char) : List (List Char) := cgo sep [] l

/-- Modelled from the spec: `EWSDate.from_string`, parsing ISO `YYYY-MM-DD`
text; `none` models the `ValueError` on unparsable text. -/
def dateParse (s : String) : Option DateM :=
  match splitChar '-' s.data with
  | [ys, ms, ds] =>
    match parseNatChars ys, parseNatChars ms, parseNatChars ds with
    | some y, some mo, some d =>
      if 1 ≤ mo ∧ mo ≤ 12 ∧ 1 ≤ d ∧ d ≤ 31 then some ⟨y, mo, d⟩ else none
    | _, _, _ => none
  | _ => none

/-! ## Datetime values (EWSDateTime is outside this module)

Modelled from the spec: a datetime value carries an optional timezone (naive
when absent); only the timezone context matters to the claims below, the
instant is kept opaque as a string. -/

/-- A datetime value: an opaque instant plus an optional timezone label. -/
structure EWSDateTimeM where
  instant : String
  tz : Option String
deriving DecidableEq

/-- Result of parsing datetime wire text (`EWSDateTime.from_string`): success,
the `NaiveDateTimeNotAllowed` carrier with the naive local datetime, or an
ordinary parse failure. -/
inductive DtParseResult where
  | ok (dt : EWSDateTimeM)
  | naive (dt : EWSDateTimeM)
  | fail
deriving DecidableEq

/-! ## Field records

One record per scalar field kind, holding the constructor arguments of the
corresponding Python class that the claims depend on.  `uriTail` is the
`field_uri_postfix` (the local name after the `prefix:`). -/

/-- Model of a `BooleanField`. -/
structure BoolFieldM where
  name : String := "f"
  uriTail : String := "F"
  default : Option Bool := none
deriving DecidableEq

/-- Model of an `IntegerField`. -/
structure IntFieldM where
  name : String := "f"
  uriTail : String := "F"
  isRequired : Bool := false
  default : Option Int := none
  supportedFrom : Option Nat := none
  fieldMin : Option Int := none
  fieldMax : Option Int := none
deriving DecidableEq

/-- Model of an `EnumField` (scalar) / `EnumListField` (list): the enum is the
tuple of labels; `min`/`max` are forced to `1`/`len(enum)` on construction. -/
structure EnumFieldM where
  name : String := "f"
  uriTail : String := "F"
  isRequired : Bool := false
  default : Option Int := none
  supportedFrom : Option Nat := none
  enum : List String := []
deriving DecidableEq

/-- Model of a `TextField`; `maxLength` is Python `max_length` with its `255`
construction default, where `some 0` is falsy like `None` in the length check. -/
structure TextFieldM where
  name : String := "f"
  uriTail : String := "F"
  isRequired : Bool := false
  default : Option String := none
  supportedFrom : Option Nat := none
  maxLength : Option Nat := some 255
deriving DecidableEq

/-- Model of a `ChoiceField`: a text field plus its fixed choice set. -/
structure ChoiceFieldM where
  name : String := "f"
  uriTail : String := "F"
  isRequired : Bool := false
  default : Option String := none
  supportedFrom : Option Nat := none
  maxLength : Option Nat := some 255
  choices : List ChoiceM := []
deriving DecidableEq

/-- Model of a `DateField`. -/
structure DateFieldM where
  name : String := "f"
  uriTail : String := "F"
  default : Option DateM := none
deriving DecidableEq

/-- Model of a `DateTimeField`. -/
structure DateTimeFieldM where
  name : String := "f"
  uriTail : String := "F"
  isRequired : Bool := false
  default : Option EWSDateTimeM := none
  supportedFrom : Option Nat := none
deriving DecidableEq

/-- Model of a `Base64Field`. -/
structure Base64FieldM where
  name : String := "f"
  uriTail : String := "F"
  default : Option (List Nat) := none
deriving DecidableEq

/-! ## Decode (from_xml) models

Each returns the decoded value (Python `None` as `none`) together with the
emitted log records, in order. -/

/-- Model of `BooleanField.from_xml`: `'true'`/`'false'` map to booleans, any
other present text logs one warning and yields `None`; absent or empty text
yields the default. -/
def booleanFromXml (f : BoolFieldM) (elem : XmlElem) : Option Bool × List LogRec :=
  match childText f.uriTail elem with
  | none => (f.default, [])
  | some t =>
    if t = "true" then (some true, [])
    else if t = "false" then (some false, [])
    else (none, [⟨.warning, t, f.name⟩])

/-- Model of `IntegerField.from_xml`: parse numeric text; parse failure logs
one warning and yields `None`; absent or empty text yields the default. -/
def integerFromXml (f : IntFieldM) (elem : XmlElem) : Option Int × List LogRec :=
  match childText f.uriTail elem with
  | none => (f.default, [])
  | some t =>
    match parseIntChars t.data with
    | some n => (some n, [])
    | none => (none, [⟨.warning, t, f.name⟩])

/-- Model of `EnumField.from_xml` for the scalar case:
`self.enum.index(val) + 1`, with a lookup failure logging one warning and
yielding `None`. -/
def enumFromXml (f : EnumFieldM) (elem : XmlElem) : Option Int × List LogRec :=
  match childText f.uriTail elem with
  | none => (f.default, [])
  | some t =>
    match f.enum.findIdx? (fun s => s = t) with
    | some i => (some ((i : Int) + 1), [])
    | none => (none, [⟨.warning, t, f.name⟩])

/-- Model of `TextField.from_xml`: present nonempty text is returned raw. -/
def textFromXml (f : TextFieldM) (elem : XmlElem) : Option String × List LogRec :=
  match childText f.uriTail elem with
  | none => (f.default, [])
  | some t => (some t, [])

/-- Model of `DateField.from_xml`: parse the date text; parse failure logs one
warning and yields `None`. -/
def dateFromXml (f : DateFieldM) (elem : XmlElem) : Option DateM × List LogRec :=
  match childText f.uriTail elem with
  | none => (f.default, [])
  | some t =>
    match dateParse t with
    | some d => (some d, [])
    | none => (none, [⟨.warning, t, f.name⟩])

/-- Model of `DateTimeField.from_xml`, parameterized by the external
`EWSDateTime.from_string` parser: a naive result is recovered by localizing to
the account default timezone with an info record; any other parse failure logs
one warning and yields `None`. -/
def dateTimeFromXml (parse : String → DtParseResult) (accountTz : String)
    (f : DateTimeFieldM) (elem : XmlElem) : Option EWSDateTimeM × List LogRec :=
  match childText f.uriTail elem with
  | none => (f.default, [])
  | some t =>
    match parse t with
    | .ok dt => (some dt, [])
    | .naive dt => (some { dt with tz := some accountTz }, [⟨.information, t, f.name⟩])
    | .fail => (none, [⟨.warning, t, f.name⟩])

/-- Model of `Base64Field.from_xml`: present text is base64-decoded with no
try/except, so a malformed payload propagates the error (outer `none`). -/
def base64FromXml (f : Base64FieldM) (elem : XmlElem) :
    Option (Option (List Nat) × List LogRec) :=
  match childText f.uriTail elem with
  | none => some (f.default, [])
  | some t =>
    match b64decode t.data with
    | some bs => some (some bs, [])
    | none => none

/-- A decimal value in coefficient-times-power-of-ten form, the data model of
the stdlib `Decimal` type used by `DecimalField`. -/
structure DecimalM where
  mantissa : Int
  exponent : Int
deriving DecidableEq

/-- Model of a `DecimalField` (an `IntegerField` subclass with
`value_cls = Decimal`). -/
structure DecimalFieldM where
  name : String := "f"
  uriTail : String := "F"
  default : Option DecimalM := none
deriving DecidableEq

/-- The Python exception propagated uncaught out of `DecimalField.from_xml`:
`decimal.InvalidOperation` derives from `ArithmeticError`, not `ValueError`. -/
inductive PyExc where
  | invalidOperation
deriving DecidableEq

/-- Model of `DecimalField.from_xml`, the `IntegerField.from_xml` wrapper
(fields.py:340-349) inherited with `value_cls = Decimal`: the
`except ValueError` guard does not match the `decimal.InvalidOperation` that
`Decimal(val)` raises on unparsable text, so a parse failure propagates as an
uncaught exception — no log record, no `None`.  The stdlib `Decimal`
constructor is outside this module and is passed in as `parse`, with `none`
standing for `InvalidOperation`. -/
def decimalFromXml (parse : String → Option DecimalM) (f : DecimalFieldM)
    (elem : XmlElem) : Except PyExc (Option DecimalM × List LogRec) :=
  match childText f.uriTail elem with
  | none => .ok (f.default, [])
  | some t =>
    match parse t with
    | some d => .ok (some d, [])
    | none => .error .invalidOperation

/-! ## Encode (to_xml) models

`set_xml_value`/`value_to_xml_text` (util.py) are outside this module;
modelled from the spec's per-kind encode column.  None of these consults the
version argument of `to_xml`. -/

/-- Model of `BooleanField.to_xml` composed with text serialization: literal
`true`/`false` text. -/
def booleanToXml (f : BoolFieldM) (v : Bool) : XmlElem :=
  mkFieldElem f.uriTail (if v then "true" else "false")

/-- Model of `IntegerField.to_xml`: numeric text. -/
def integerToXml (f : IntFieldM) (v : Int) : XmlElem :=
  mkFieldElem f.uriTail (String.mk (intDigits v))

/-- Model of `TextField.to_xml`: raw text. -/
def textToXml (f : TextFieldM) (v : String) : XmlElem :=
  mkFieldElem f.uriTail v

/-- Python list indexing with negative wrap-around, for `self.enum[value - 1]`;
`none` models `IndexError`. -/
def pyIndex (l : List String) (i : Int) : Option String :=
  if 0 ≤ i then l[i.toNat]? else l[(l.length - (-i).toNat)]?

/-- Model of `EnumField.to_xml` for the scalar case: the bare label
`self.enum[value - 1]`. -/
def enumToXml (f : EnumFieldM) (v : Int) : Option XmlElem :=
  (pyIndex f.enum (v - 1)).map (mkFieldElem f.uriTail)

/-- Model of `DateField.to_xml` composed with text serialization: ISO date
text. -/
def dateToXml (f : DateFieldM) (dt : DateM) : XmlElem :=
  mkFieldElem f.uriTail (String.mk (dateText dt))

/-- Model of `Base64Field.to_xml`: base64-encoded text. -/
def base64ToXml (f : Base64FieldM) (v : List Nat) : XmlElem :=
  mkFieldElem f.uriTail (String.mk (b64encode v))

/-! ## Clean (validate_and_coerce) models

`Field.clean` checks the version gate, then handles an absent value (required
check, else the default), then the value type; subclasses refine afterwards —
except where the source refines before calling `super()`. -/

/-- Model of the base `Field.clean` on an already type-correct value: version
gate, then absent-value handling.  The returned value (possibly the raw
default) is what subclasses refine further. -/
def fieldCleanBase {α : Type} (supportedFrom : Option Nat) (isRequired : Bool)
    (default : Option α) (value : Option α) (version : Option Nat) :
    Except CleanErr (Option α) :=
  if supportsVersion supportedFrom version = false then .error .unsupportedVersion
  else
    match value with
    | none =>
      if isRequired = true ∧ default.isNone = true then .error .missingRequired
      else .ok default
    | some v => .ok (some v)

/-- True when an optional lower bound is set and the value is below it. -/
def belowMin (mn : Option Int) (v : Int) : Bool :=
  match mn with
  | some m => decide (v < m)
  | none => false

/-- True when an optional upper bound is set and the value is above it. -/
def aboveMax (mx : Option Int) (v : Int) : Bool :=
  match mx with
  | some m => decide (m < v)
  | none => false

/-- Model of the min/max refinement of `IntegerField.clean` on a present
value: min is checked before max, bounds are inclusive. -/
def intRangeCheck (fieldMin fieldMax : Option Int) (v : Int) :
    Except CleanErr (Option Int) :=
  if belowMin fieldMin v = true then .error .rangeBelow
  else if aboveMax fieldMax v = true then .error .rangeAbove
  else .ok (some v)

/-- Model of `IntegerField.clean` (scalar): base clean, then min/max on the
resulting value when present (also when it came from the default). -/
def integerClean (f : IntFieldM) (value : Option Int) (version : Option Nat) :
    Except CleanErr (Option Int) :=
  match fieldCleanBase f.supportedFrom f.isRequired f.default value version with
  | .error e => .error e
  | .ok none => .ok none
  | .ok (some v) => intRangeCheck f.fieldMin f.fieldMax v

/-- The `super()` call of `EnumField.clean`: `IntegerField.clean` with the
enum's forced bounds `min = 1`, `max = len(enum)`.  Non-integer defaults are
not representable: in the source a string default returned by the base clean
always fails the subsequent ordering comparison against the bounds, so only
integer (or absent) defaults are modelled. -/
def enumSuper (f : EnumFieldM) (value : Option Int) (version : Option Nat) :
    Except CleanErr (Option Int) :=
  integerClean
    { name := f.name, uriTail := f.uriTail, isRequired := f.isRequired,
      default := f.default, supportedFrom := f.supportedFrom,
      fieldMin := some 1, fieldMax := some (f.enum.length : Int) }
    value version

/-- Model of `EnumField.clean` (scalar): a string value is first checked for
enum membership (before any version check!) and replaced by its 1-based
position; then the integer path runs `super().clean`. -/
def enumClean (f : EnumFieldM) (value : Option (String ⊕ Int))
    (version : Option Nat) : Except CleanErr (Option Int) :=
  match value with
  | some (.inl s) =>
    if s ∈ f.enum then
      enumSuper f (some ((f.enum.findIdx (fun x => x = s) : Int) + 1)) version
    else .error .invalidEnumLabel
  | some (.inr n) => enumSuper f (some n) version
  | none => enumSuper f none version

/-- One conversion step of the list branch of `EnumField.clean`: a string
entry must be an enum member and becomes its 1-based position. -/
def enumConvert (f : EnumFieldM) (v : String ⊕ Int) : Except CleanErr Int :=
  match v with
  | .inl s =>
    if s ∈ f.enum then .ok ((f.enum.findIdx (fun x => x = s) : Int) + 1)
    else .error .invalidEnumLabel
  | .inr n => .ok n

/-- The conversion pass over a list value, in iteration order, failing at the
first bad entry. -/
def enumConvertList (f : EnumFieldM) : List (String ⊕ Int) → Except CleanErr (List Int)
  | [] => .ok []
  | v :: rest =>
    match enumConvert f v with
    | .error e => .error e
    | .ok n =>
      match enumConvertList f rest with
      | .error e => .error e
      | .ok ns => .ok (n :: ns)

/-- The per-element min/max loop of `IntegerField.clean` for lists. -/
def enumListRange (f : EnumFieldM) : List Int → Except CleanErr Unit
  | [] => .ok ()
  | v :: rest =>
    if v < 1 then .error .rangeBelow
    else if (f.enum.length : Int) < v then .error .rangeAbove
    else enumListRange f rest

/-- The checks of the list branch of `EnumField.clean` that run after the
string entries were converted: nonempty, unique, then `super().clean` (version
gate, then the per-element bounds). -/
def enumListAfterConvert (f : EnumFieldM) (l2 : List Int) (version : Option Nat) :
    Except CleanErr (Option (List Int)) :=
  if l2.length = 0 then .error .emptyList
  else if l2.dedup.length < l2.length then .error .dupEntries
  else if supportsVersion f.supportedFrom version = false then
    .error .unsupportedVersion
  else
    match enumListRange f l2 with
    | .error e => .error e
    | .ok _ => .ok (some l2)

/-- Model of `EnumField.clean` with `is_list` (`EnumListField`): `list(value)`
crashes with `TypeError` on an absent value (before every other check); then
string entries are converted, the list must be nonempty with unique entries,
and only then does `super().clean` run the version gate and per-element
bounds. -/
def enumListClean (f : EnumFieldM) (value : Option (List (String ⊕ Int)))
    (version : Option Nat) : Except CleanErr (Option (List Int)) :=
  match value with
  | none => .error .pyTypeError
  | some l =>
    match enumConvertList f l with
    | .error e => .error e
    | .ok l2 => enumListAfterConvert f l2 version

/-- Model of `TextField.clean` (scalar): base clean, then the max-length check
on the resulting value when present and `max_length` is truthy. -/
def textClean (f : TextFieldM) (value : Option String) (version : Option Nat) :
    Except CleanErr (Option String) :=
  match fieldCleanBase f.supportedFrom f.isRequired f.default value version with
  | .error e => .error e
  | .ok none => .ok none
  | .ok (some v) =>
    match f.maxLength with
    | some m => if m ≠ 0 ∧ m < v.length then .error .lengthExceeded else .ok (some v)
    | none => .ok (some v)

/-- The text-field view of a choice field, for its `super().clean` call. -/
def choiceAsText (f : ChoiceFieldM) : TextFieldM :=
  { name := f.name, uriTail := f.uriTail, isRequired := f.isRequired,
    default := f.default, supportedFrom := f.supportedFrom,
    maxLength := f.maxLength }

/-- Model of `ChoiceField.clean`: the text clean runs first (so the base
version gate precedes the choice checks); a present result must match a
declared choice, and that choice must itself support the version. -/
def choiceClean (f : ChoiceFieldM) (value : Option String)
    (version : Option Nat) : Except CleanErr (Option String) :=
  match textClean (choiceAsText f) value version with
  | .error e => .error e
  | .ok none => .ok none
  | .ok (some s) =>
    match f.choices.find? (fun c => c.value = s) with
    | some c =>
      if choiceSupports c version then .ok (some s) else .error .unsupportedVersion
    | none => .error .invalidChoice

/-- Model of `DateTimeField.clean`: the timezone-awareness check runs before
`super().clean` (so before any version check); then the base clean. -/
def dateTimeClean (f : DateTimeFieldM) (value : Option EWSDateTimeM)
    (version : Option Nat) : Except CleanErr (Option EWSDateTimeM) :=
  match value with
  | some v =>
    if v.tz = none then .error .naiveDatetime
    else fieldCleanBase f.supportedFrom f.isRequired f.default (some v) version
  | none => fieldCleanBase f.supportedFrom f.isRequired f.default none version

/-! ## Field paths: split -/

/-- Split a character list on the two-character `__` delimiter, leftmost
non-overlapping first, accumulating the current segment (Python
`str.split('__')`). -/
def sgo (acc : List Char) : List Char → List (List Char)
  | [] => [acc]
  | [c] => [acc ++ [c]]
  | c :: c2 :: rest =>
    if c = '_' ∧ c2 = '_' then acc :: sgo [] rest
    else sgo (acc ++ [c]) (c2 :: rest)

/-- Model of `field_path.split('__')`. -/
def pySplitDunder (l : List Char) : List (List Char) := sgo [] l

/-- Model of `split_field_path`: the first three `__`-separated parts, with
missing trailing parts absent (`None`) rather than errors, and parts beyond
the third ignored. -/
def split_field_path (s : String) : String × Option String × Option String :=
  let parts := (pySplitDunder s.data).map String.mk
  (parts.headD "", parts[1]?, parts[2]?)

/-- True when a character list contains no `__` occurrence (no two adjacent
underscores), so it survives as one segment of a `__`-split. -/
def noDunder : List Char → Bool
  | [] => true
  | [_] => true
  | c :: c2 :: rest => !(c = '_' ∧ c2 = '_') && noDunder (c2 :: rest)

/-- True when a character list ends in an underscore (in which case a
following `__` delimiter would merge with it). -/
def endsUnd (l : List Char) : Bool :=
  match l.getLast? with
  | some '_' => true
  | _ => false

/-- Join segments with the `__` delimiter. -/
def joinDunder : List (List Char) → List Char
  | [] => []
  | [x] => x
  | x :: xs => x ++ '_' :: '_' :: joinDunder xs

/-! ## Field paths: schema model and resolve -/

/-- The name of a sub-field of an indexed value class. -/
structure SubFieldM where
  name : String
deriving DecidableEq

/-- The two indexed-collection kinds: one implicit sub-value per label, or
several named sub-fields per label. -/
inductive IdxKind where
  | single
  | multi
deriving DecidableEq

/-- Model of an indexed value class: its kind, the choices of its
`LABEL_FIELD` (version-gated), and its declared sub-field descriptors. -/
structure ValueClsM where
  idxKind : IdxKind
  labelChoices : List ChoiceM
  fields : List SubFieldM
deriving DecidableEq

/-- Modelled from the spec: `value_cls.supported_fields(version)` (the value
classes live in indexed_properties.py, outside this module).  Section 3 of the
spec version-gates the label set but declares the sub-field set plainly, so
all declared sub-fields are returned for every version. -/
def supportedFieldsM (vc : ValueClsM) (_version : Option Nat) : List SubFieldM :=
  vc.fields

/-- Modelled from the spec: `value_cls.value_field(version)` of a single-field
collection — the canonical implicit sub-field, its first declared sub-field. -/
def valueFieldM (vc : ValueClsM) : SubFieldM :=
  vc.fields.headD ⟨""⟩

/-- Modelled from the spec: `value_cls.get_field_by_fieldname(name)` — look up
a declared sub-field by name, `none` for the `ValueError` on an unknown name. -/
def getFieldByName (vc : ValueClsM) (n : String) : Option SubFieldM :=
  vc.fields.find? (fun sf => sf.name = n)

/-- A field descriptor as seen by path resolution: an ordinary addressable
field or an indexed-collection field with its value class. -/
inductive FieldDM where
  | plain (name : String)
  | indexed (name : String) (vc : ValueClsM)
deriving DecidableEq

/-- The name of a field descriptor. -/
def fieldNameM : FieldDM → String
  | .plain n => n
  | .indexed n _ => n

/-- The schema context of resolution: the folder's item fields and the
account's version. -/
structure FolderM where
  itemFields : List FieldDM
  version : Option Nat
deriving DecidableEq

/-- Modelled from the spec: `folder.get_item_field_by_fieldname` (folders.py,
outside this module) — `schema.field_by_name(name)`, failing on an unknown
name. -/
def getItemFieldByName (folder : FolderM) (n : String) : Option FieldDM :=
  folder.itemFields.find? (fun fd => fieldNameM fd = n)

/-- Python truthiness of an optional string: `None` and `''` are falsy. -/
def truthy (o : Option String) : Bool :=
  o.getD "" ≠ ""

/-- The path-resolution errors of `resolve_field_path` (each a `ValueError` in
the source, distinguished here by its message). -/
inductive ResolveErr where
  | unknownField
  | missingLabel
  | invalidLabel
  | missingSubfield
  | unknownSubfield
  | unexpectedSubfield
  | malformedPath
deriving DecidableEq

/-- Model of `resolve_field_path`: split the path, look the field up, and
validate label and subfield against the field's indexed structure, with the
strict/lenient distinction of the source. -/
def resolve_field_path (path : String) (folder : FolderM) (strict : Bool) :
    Except ResolveErr (FieldDM × Option String × Option SubFieldM) :=
  let parts := split_field_path path
  let fieldname := parts.1
  let label := parts.2.1
  let subfieldname := parts.2.2
  match getItemFieldByName folder fieldname with
  | none => .error .unknownField
  | some field =>
    match field with
    | .indexed _ vc =>
      if strict = true ∧ truthy label = false then .error .missingLabel
      else if truthy label = true ∧
          label.getD "" ∉ supportedChoiceValues vc.labelChoices folder.version then
        .error .invalidLabel
      else
        match vc.idxKind with
        | .multi =>
          if strict = true ∧ truthy subfieldname = false then .error .missingSubfield
          else if truthy subfieldname = true then
            match getFieldByName vc (subfieldname.getD "") with
            | some sf => .ok (field, label, some sf)
            | none => .error .unknownSubfield
          else .ok (field, label, none)
        | .single =>
          if truthy subfieldname = true then .error .unexpectedSubfield
          else .ok (field, label, some (valueFieldM vc))
    | .plain _ =>
      if truthy label = true ∨ truthy subfieldname = true then .error .malformedPath
      else .ok (field, label, none)

/-! ## FieldPath and expand -/

/-- Model of `FieldPath`: a field, an optional label, an optional sub-field.
Equality is by this triple, as in the source's `__hash__`/`__eq__`. -/
structure FieldPathM where
  field : FieldDM
  label : Option String := none
  subfield : Option SubFieldM := none
deriving DecidableEq

/-- Model of `FieldPath.expand`: a non-indexed path yields itself; an indexed
path yields the product of (its truthy label, else all version-supported
labels) with (its sub-field, else all supported sub-fields), labels outermost. -/
def expandPath (fp : FieldPathM) (version : Option Nat) : List FieldPathM :=
  match fp.field with
  | .indexed _ vc =>
    let labels :=
      if truthy fp.label then [fp.label.getD ""]
      else supportedChoiceValues vc.labelChoices version
    let subfields :=
      match fp.subfield with
      | some sf => [sf]
      | none => supportedFieldsM vc version
    labels.flatMap (fun l => subfields.map (fun sf => ⟨fp.field, some l, some sf⟩))
  | .plain _ => [fp]

/-! ## Extended/compound-key fields -/

/-- An extended-property element as seen by `ExtendedPropertyField.from_xml`:
the attributes of its `ExtendedFieldURI` child, plus an opaque payload that
stands for the value content handed to `value_cls.from_xml`. -/
structure ExtPropElem where
  uriAttrs : List (String × String)
  payload : String
deriving DecidableEq

/-- Model of the matching loop body: every `(k, v)` that the descriptor's
`properties_map()` declares must equal the element's attribute `k`. -/
def pmMatches (pm : List (String × String)) (e : ExtPropElem) : Bool :=
  pm.all (fun kv => e.uriAttrs.lookup kv.1 = some kv.2)

/-- Model of `ExtendedPropertyField.from_xml`: scan the extended-property
elements in document order, decode and return the first whose identifying
attributes match every declared attribute, and fall back to the field's
default when none matches. -/
def extFromXml {V : Type} (pm : List (String × String)) (default : Option V)
    (dec : ExtPropElem → V) : List ExtPropElem → Option V
  | [] => default
  | e :: rest =>
    if pmMatches pm e then some (dec e) else extFromXml pm default dec rest

/-! ## Lemmas about splitting on the double-underscore delimiter -/

theorem sgo_sep (rest : List Char) (seg : List Char) (h1 : noDunder seg = true)
    (h2 : endsUnd seg = false) (acc : List Char) :
    sgo acc (seg ++ '_' :: '_' :: rest) = (acc ++ seg) :: sgo [] rest := by
  induction seg generalizing acc with
  | nil => simp [sgo]
  | cons c cs ih =>
    cases cs with
    | nil =>
      have hc : ¬ c = '_' := by
        intro h
        subst h
        simp [endsUnd] at h2
      simp only [List.cons_append, List.nil_append, sgo]
      rw [if_neg (by simp [hc])]
      simp [sgo]
    | cons c2 cs2 =>
      have hnd : ¬ (c = '_' ∧ c2 = '_') := by
        intro h
        simp [noDunder, h.1, h.2] at h1
      have h1' : noDunder (c2 :: cs2) = true := by
        simp [noDunder] at h1
        exact h1.2
      have h2' : endsUnd (c2 :: cs2) = false := by
        simpa [endsUnd, List.getLast?_cons_cons] using h2
      simp only [List.cons_append, sgo]
      rw [if_neg hnd]
      have hih := ih h1' h2' (acc ++ [c])
      simp only [List.cons_append, List.append_assoc, List.append_eq,
        List.nil_append] at hih ⊢
      rw [hih]

theorem sgo_last (seg : List Char) (h1 : noDunder seg = true) (acc : List Char) :
    sgo acc seg = [acc ++ seg] := by
  induction seg generalizing acc with
  | nil => simp [sgo]
  | cons c cs ih =>
    cases cs with
    | nil => simp [sgo]
    | cons c2 cs2 =>
      have hnd : ¬ (c = '_' ∧ c2 = '_') := by
        intro h
        simp [noDunder, h.1, h.2] at h1
      have h1' : noDunder (c2 :: cs2) = true := by
        simp [noDunder] at h1
        exact h1.2
      simp only [sgo]
      rw [if_neg hnd, ih h1' (acc ++ [c])]
      simp

theorem pySplit_join (segs : List (List Char)) (hne : segs ≠ [])
    (hnd : ∀ s ∈ segs, noDunder s = true)
    (hend : ∀ s ∈ segs.dropLast, endsUnd s = false) :
    pySplitDunder (joinDunder segs) = segs := by
  induction segs with
  | nil => exact absurd rfl hne
  | cons x xs ih =>
    cases xs with
    | nil =>
      simp only [joinDunder, pySplitDunder]
      rw [sgo_last x (hnd x (by simp)) []]
      simp
    | cons y ys =>
      have hx : noDunder x = true := hnd x (by simp)
      have hxe : endsUnd x = false := by
        apply hend
        simp [List.dropLast_cons₂]
      simp only [joinDunder, pySplitDunder]
      rw [sgo_sep (joinDunder (y :: ys)) x hx hxe []]
      have := ih (by simp)
        (fun s hs => hnd s (by simp [hs]))
        (fun s hs => hend s (by simp [List.dropLast_cons₂]; right; simpa using hs))
      simp only [pySplitDunder] at this
      rw [this]
      simp

/-- C8: `split_field_path` maps a path with no `__` to `(field, None, None)`,
one `__` to `(field, label, None)` and two to `(field, label, subfield)`,
missing trailing segments being absent rather than errors; in particular the
three documented examples hold. -/
theorem C8_split_field_path_segments :
    (split_field_path "start" = ("start", none, none)
      ∧ split_field_path "phone_numbers__PrimaryPhone"
          = ("phone_numbers", some "PrimaryPhone", none)
      ∧ split_field_path "physical_addresses__Home__street"
          = ("physical_addresses", some "Home", some "street"))
    ∧ (∀ a : List Char, noDunder a = true →
        split_field_path (String.mk a) = (String.mk a, none, none))
    ∧ (∀ a b : List Char, noDunder a = true → noDunder b = true →
        endsUnd a = false →
        split_field_path (String.mk (joinDunder [a, b]))
          = (String.mk a, some (String.mk b), none))
    ∧ (∀ a b c : List Char, noDunder a = true → noDunder b = true →
        noDunder c = true → endsUnd a = false → endsUnd b = false →
        split_field_path (String.mk (joinDunder [a, b, c]))
          = (String.mk a, some (String.mk b), some (String.mk c))) := by
  refine ⟨⟨by decide, by decide, by decide⟩, ?_, ?_, ?_⟩
  · intro a ha
    have h : pySplitDunder a = [a] :=
      pySplit_join [a] (by simp) (by simpa using ha) (by simp)
    simp [split_field_path, h]
  · intro a b ha hb hae
    have h := pySplit_join [a, b] (by simp) (by simp [ha, hb])
      (by simp [List.dropLast_cons₂, hae])
    simp [split_field_path, h]
  · intro a b c ha hb hc hae hbe
    have h := pySplit_join [a, b, c] (by simp) (by simp [ha, hb, hc])
      (by simp [List.dropLast_cons₂, hae, hbe])
    simp [split_field_path, h]

theorem C8_witness :
    split_field_path (String.mk ['x']) = (String.mk ['x'], none, none) :=
  C8_split_field_path_segments.2.1 ['x'] (by decide)

/-- C9: on a path with more than two `__` delimiters, `split_field_path`
returns exactly the first three segments and silently ignores every further
segment, with no error. -/
theorem C9_split_ignores_extra_segments (a b c : List Char)
    (ds : List (List Char)) (_hds : ds ≠ [])
    (hnd : ∀ s ∈ a :: b :: c :: ds, noDunder s = true)
    (hend : ∀ s ∈ (a :: b :: c :: ds).dropLast, endsUnd s = false) :
    split_field_path (String.mk (joinDunder (a :: b :: c :: ds)))
      = (String.mk a, some (String.mk b), some (String.mk c)) := by
  have h := pySplit_join (a :: b :: c :: ds) (by simp) hnd hend
  simp [split_field_path, h]

theorem C9_witness :
    split_field_path (String.mk (joinDunder [['a'], ['b'], ['c'], ['d']]))
      = (String.mk ['a'], some (String.mk ['b']), some (String.mk ['c'])) :=
  C9_split_ignores_extra_segments ['a'] ['b'] ['c'] [['d']]
    (by decide) (by decide) (by decide)

/-! ## C3: extended/compound-key decode -/

/-- C3 (amended): extended-property decode scans the elements in document
order and returns the decoded first element whose identifying attributes match
every attribute the descriptor declares — deterministically the first even
when several match — ignoring non-matching elements; when zero elements match
it returns the field's default value (which is `None` only when the default is
`None`). -/
theorem C3_extended_property_first_match :
    (∀ (V : Type) (pm : List (String × String)) (d : Option V)
        (dec : ExtPropElem → V) (elems : List ExtPropElem),
      extFromXml pm d dec elems =
        match elems.find? (pmMatches pm) with
        | some e => some (dec e)
        | none => d)
    ∧ (∀ (V : Type) (pm : List (String × String)) (d : Option V)
        (dec : ExtPropElem → V) (e : ExtPropElem) (rest : List ExtPropElem),
      pmMatches pm e = true → extFromXml pm d dec (e :: rest) = some (dec e))
    ∧ (∀ (V : Type) (pm : List (String × String)) (d : Option V)
        (dec : ExtPropElem → V) (elems : List ExtPropElem),
      (∀ e ∈ elems, pmMatches pm e = false) → extFromXml pm d dec elems = d) := by
  have hfind : ∀ (V : Type) (pm : List (String × String)) (d : Option V)
      (dec : ExtPropElem → V) (elems : List ExtPropElem),
      extFromXml pm d dec elems =
        match elems.find? (pmMatches pm) with
        | some e => some (dec e)
        | none => d := by
    intro V pm d dec elems
    induction elems with
    | nil => rfl
    | cons e rest ih =>
      by_cases h : pmMatches pm e = true
      · simp [extFromXml, h, List.find?_cons_of_pos]
      · rw [List.find?_cons_of_neg _ (by simpa using h)]
        simpa [extFromXml, h] using ih
  refine ⟨hfind, ?_, ?_⟩
  · intro V pm d dec e rest h
    simp [extFromXml, h]
  · intro V pm d dec elems h
    rw [hfind]
    rw [List.find?_eq_none.mpr (fun e he => by simpa using h e he)]

theorem C3_witness :
    extFromXml [("PropertyTag", "0x3A2D")] none (fun _ => (7 : Nat))
      [⟨[("DistinguishedPropertySetId", "Common")], "x"⟩,
       ⟨[("PropertyTag", "0x3A2D")], "y"⟩] = some 7 := by
  have h := C3_extended_property_first_match.1 Nat [("PropertyTag", "0x3A2D")]
    none (fun _ => (7 : Nat))
    [⟨[("DistinguishedPropertySetId", "Common")], "x"⟩,
     ⟨[("PropertyTag", "0x3A2D")], "y"⟩]
  rw [h]
  decide

theorem C3_counterexample :
    extFromXml ([("PropertyTag", "0x3A2D")]) (some (7 : Nat)) (fun _ => 0) []
        = some 7
      ∧ some (7 : Nat) ≠ none := by
  constructor
  · rfl
  · decide

/-! ## C10: an absent version supports everything -/

theorem supportsVersion_none (sf : Option Nat) : supportsVersion sf none = true := by
  cases sf <;> rfl

theorem fieldCleanBase_ne_unsupported {α : Type} (sf : Option Nat)
    (req : Bool) (d v : Option α) :
    fieldCleanBase sf req d v none ≠ .error .unsupportedVersion := by
  unfold fieldCleanBase
  rw [supportsVersion_none]
  cases v with
  | none =>
    by_cases h : req = true ∧ d.isNone = true
    · rw [if_pos h]
      simp
    · rw [if_neg h]
      simp
  | some x => simp

theorem intRangeCheck_ne_unsupported (mn mx : Option Int) (v : Int) :
    intRangeCheck mn mx v ≠ .error .unsupportedVersion := by
  unfold intRangeCheck
  by_cases h1 : belowMin mn v = true
  · rw [if_pos h1]
    simp
  · rw [if_neg h1]
    by_cases h2 : aboveMax mx v = true
    · rw [if_pos h2]
      simp
    · rw [if_neg h2]
      simp

theorem integerClean_eq (f : IntFieldM) (v : Option Int) (ver : Option Nat) :
    integerClean f v ver =
      match fieldCleanBase f.supportedFrom f.isRequired f.default v ver with
      | .error e => .error e
      | .ok none => .ok none
      | .ok (some x) => intRangeCheck f.fieldMin f.fieldMax x := rfl

theorem integerClean_ne_unsupported (f : IntFieldM) (v : Option Int) :
    integerClean f v none ≠ .error .unsupportedVersion := by
  rw [integerClean_eq]
  cases hc : fieldCleanBase f.supportedFrom f.isRequired f.default v none with
  | error e =>
    show Except.error e ≠ _
    intro h
    injection h with h2
    rw [h2] at hc
    exact fieldCleanBase_ne_unsupported _ _ _ _ hc
  | ok o =>
    cases o with
    | none => simp
    | some x =>
      show intRangeCheck f.fieldMin f.fieldMax x ≠ _
      exact intRangeCheck_ne_unsupported _ _ _

theorem enumConvert_inl_eq (f : EnumFieldM) (s : String) :
    enumConvert f (.inl s) =
      if s ∈ f.enum then .ok ((f.enum.findIdx (fun x => x = s) : Int) + 1)
      else .error .invalidEnumLabel := rfl

theorem enumConvert_inr_eq (f : EnumFieldM) (n : Int) :
    enumConvert f (.inr n) = .ok n := rfl

theorem enumConvert_ne_unsupported (f : EnumFieldM) (v : String ⊕ Int) :
    enumConvert f v ≠ .error .unsupportedVersion := by
  cases v with
  | inl s =>
    rw [enumConvert_inl_eq]
    by_cases h : s ∈ f.enum
    · rw [if_pos h]
      simp
    · rw [if_neg h]
      simp
  | inr n =>
    rw [enumConvert_inr_eq]
    simp

theorem enumConvertList_ne_unsupported (f : EnumFieldM) (l : List (String ⊕ Int)) :
    enumConvertList f l ≠ .error .unsupportedVersion := by
  induction l with
  | nil => simp [enumConvertList]
  | cons v rest ih =>
    show (match enumConvert f v with
      | .error e => Except.error e
      | .ok n =>
        match enumConvertList f rest with
        | .error e => Except.error e
        | .ok ns => Except.ok (n :: ns))
        ≠ Except.error CleanErr.unsupportedVersion
    cases hv : enumConvert f v with
    | error e =>
      show Except.error e ≠ _
      intro h
      injection h with h2
      rw [h2] at hv
      exact enumConvert_ne_unsupported f v hv
    | ok n =>
      cases hr : enumConvertList f rest with
      | error e =>
        show Except.error e ≠ _
        intro h
        injection h with h2
        rw [h2] at hr
        exact ih hr
      | ok ns => simp

theorem enumListRange_ne_unsupported (f : EnumFieldM) (l : List Int) :
    enumListRange f l ≠ .error .unsupportedVersion := by
  induction l with
  | nil => simp [enumListRange]
  | cons v rest ih =>
    show (if v < 1 then Except.error CleanErr.rangeBelow
      else if (f.enum.length : Int) < v then Except.error CleanErr.rangeAbove
      else enumListRange f rest) ≠ _
    by_cases h1 : v < 1
    · rw [if_pos h1]
      simp
    · rw [if_neg h1]
      by_cases h2 : (f.enum.length : Int) < v
      · rw [if_pos h2]
        simp
      · rw [if_neg h2]
        exact ih

theorem enumClean_none_eq (f : EnumFieldM) (ver : Option Nat) :
    enumClean f none ver = enumSuper f none ver := rfl

theorem enumClean_inr_eq (f : EnumFieldM) (n : Int) (ver : Option Nat) :
    enumClean f (some (.inr n)) ver = enumSuper f (some n) ver := rfl

theorem enumClean_inl_eq (f : EnumFieldM) (s : String) (ver : Option Nat) :
    enumClean f (some (.inl s)) ver =
      if s ∈ f.enum then
        enumSuper f (some ((f.enum.findIdx (fun x => x = s) : Int) + 1)) ver
      else .error .invalidEnumLabel := rfl

theorem enumSuper_ne_unsupported (f : EnumFieldM) (v : Option Int) :
    enumSuper f v none ≠ .error .unsupportedVersion :=
  integerClean_ne_unsupported _ _

theorem enumListClean_some_eq (f : EnumFieldM) (l : List (String ⊕ Int))
    (ver : Option Nat) :
    enumListClean f (some l) ver =
      match enumConvertList f l with
      | .error e => .error e
      | .ok l2 => enumListAfterConvert f l2 ver := rfl

theorem enumListAfterConvert_ne_unsupported (f : EnumFieldM) (l2 : List Int) :
    enumListAfterConvert f l2 none ≠ .error .unsupportedVersion := by
  unfold enumListAfterConvert
  by_cases h0 : l2.length = 0
  · rw [if_pos h0]
    simp
  · rw [if_neg h0]
    by_cases h1 : l2.dedup.length < l2.length
    · rw [if_pos h1]
      simp
    · rw [if_neg h1]
      rw [supportsVersion_none]
      rw [if_neg (by simp)]
      cases hr : enumListRange f l2 with
      | error e =>
        show Except.error e ≠ _
        intro h
        injection h with h2
        rw [h2] at hr
        exact enumListRange_ne_unsupported f l2 hr
      | ok u => simp

/-- C10: with an absent version every field and every choice counts as
supported — `supports_version` is true and no `clean` variant can fail with
`UnsupportedVersion`. -/
theorem C10_none_version_supports_everything :
    (∀ sf : Option Nat, supportsVersion sf none = true)
    ∧ (∀ c : ChoiceM, choiceSupports c none = true)
    ∧ (∀ (f : IntFieldM) (v : Option Int),
        integerClean f v none ≠ .error .unsupportedVersion)
    ∧ (∀ (f : EnumFieldM) (v : Option (String ⊕ Int)),
        enumClean f v none ≠ .error .unsupportedVersion)
    ∧ (∀ (f : EnumFieldM) (v : Option (List (String ⊕ Int))),
        enumListClean f v none ≠ .error .unsupportedVersion)
    ∧ (∀ (f : TextFieldM) (v : Option String),
        textClean f v none ≠ .error .unsupportedVersion)
    ∧ (∀ (f : ChoiceFieldM) (v : Option String),
        choiceClean f v none ≠ .error .unsupportedVersion)
    ∧ (∀ (f : DateTimeFieldM) (v : Option EWSDateTimeM),
        dateTimeClean f v none ≠ .error .unsupportedVersion) := by
  have htext : ∀ (f : TextFieldM) (v : Option String),
      textClean f v none ≠ .error .unsupportedVersion := by
    intro f v
    show (match fieldCleanBase f.supportedFrom f.isRequired f.default v none with
      | .error e => Except.error e
      | .ok none => Except.ok none
      | .ok (some w) =>
        match f.maxLength with
        | some m =>
          if m ≠ 0 ∧ m < w.length then Except.error CleanErr.lengthExceeded
          else Except.ok (some w)
        | none => Except.ok (some w))
        ≠ Except.error CleanErr.unsupportedVersion
    cases hc : fieldCleanBase f.supportedFrom f.isRequired f.default v none with
    | error e =>
      show Except.error e ≠ _
      intro h
      injection h with h2
      rw [h2] at hc
      exact fieldCleanBase_ne_unsupported _ _ _ _ hc
    | ok o =>
      cases o with
      | none => simp
      | some w =>
        cases f.maxLength with
        | none => simp
        | some m =>
          by_cases h : m ≠ 0 ∧ m < w.length
          · show (if m ≠ 0 ∧ m < w.length then _ else _) ≠ _
            rw [if_pos h]
            simp
          · show (if m ≠ 0 ∧ m < w.length then _ else _) ≠ _
            rw [if_neg h]
            simp
  refine ⟨supportsVersion_none, ?_, integerClean_ne_unsupported, ?_, ?_, htext, ?_, ?_⟩
  · intro c
    exact supportsVersion_none c.supportedFrom
  · intro f v
    cases v with
    | none =>
      rw [enumClean_none_eq]
      exact enumSuper_ne_unsupported _ _
    | some x =>
      cases x with
      | inl s =>
        rw [enumClean_inl_eq]
        by_cases h : s ∈ f.enum
        · rw [if_pos h]
          exact enumSuper_ne_unsupported _ _
        · rw [if_neg h]
          simp
      | inr n =>
        rw [enumClean_inr_eq]
        exact enumSuper_ne_unsupported _ _
  · intro f v
    cases v with
    | none => simp [enumListClean]
    | some l =>
      rw [enumListClean_some_eq]
      cases hc : enumConvertList f l with
      | error e =>
        show Except.error e ≠ _
        intro h
        injection h with h2
        rw [h2] at hc
        exact enumConvertList_ne_unsupported f l hc
      | ok l2 =>
        exact enumListAfterConvert_ne_unsupported f l2
  · intro f v
    show (match textClean (choiceAsText f) v none with
      | .error e => Except.error e
      | .ok none => Except.ok none
      | .ok (some s) =>
        match f.choices.find? (fun c => c.value = s) with
        | some c =>
          if choiceSupports c none then Except.ok (some s)
          else Except.error CleanErr.unsupportedVersion
        | none => Except.error CleanErr.invalidChoice)
        ≠ Except.error CleanErr.unsupportedVersion
    cases hc : textClean (choiceAsText f) v none with
    | error e =>
      show Except.error e ≠ _
      intro h
      injection h with h2
      rw [h2] at hc
      exact htext _ _ hc
    | ok o =>
      cases o with
      | none => simp
      | some s =>
        show (match f.choices.find? (fun c => c.value = s) with
          | some c =>
            if choiceSupports c none then Except.ok (some s)
            else Except.error CleanErr.unsupportedVersion
          | none => Except.error CleanErr.invalidChoice)
          ≠ Except.error CleanErr.unsupportedVersion
        cases hf : f.choices.find? (fun c => c.value = s) with
        | none => simp
        | some c =>
          show (if choiceSupports c none = true then Except.ok (some s)
            else Except.error CleanErr.unsupportedVersion)
            ≠ Except.error CleanErr.unsupportedVersion
          rw [show choiceSupports c none = true from supportsVersion_none _]
          simp
  · intro f v
    cases v with
    | none =>
      show fieldCleanBase f.supportedFrom f.isRequired f.default none none
        ≠ Except.error CleanErr.unsupportedVersion
      exact fieldCleanBase_ne_unsupported _ _ _ _
    | some dt =>
      show (if dt.tz = none then Except.error CleanErr.naiveDatetime
        else fieldCleanBase f.supportedFrom f.isRequired f.default (some dt) none)
        ≠ Except.error CleanErr.unsupportedVersion
      by_cases h : dt.tz = none
      · rw [if_pos h]
        simp
      · rw [if_neg h]
        exact fieldCleanBase_ne_unsupported _ _ _ _

/-! ## C2: the version gate versus kind-specific pre-checks -/

theorem fieldCleanBase_unsupported {α : Type} (sf : Option Nat) (req : Bool)
    (d v : Option α) (ver : Option Nat) (h : supportsVersion sf ver = false) :
    fieldCleanBase sf req d v ver = .error .unsupportedVersion := by
  unfold fieldCleanBase
  rw [h]
  rfl

theorem C2_counterexample :
    supportsVersion
        (EnumFieldM.supportedFrom { supportedFrom := some 10, enum := ["A", "B"] })
        (some 5) = false
      ∧ enumClean { supportedFrom := some 10, enum := ["A", "B"] }
          (some (.inl "X")) (some 5) ≠ .error .unsupportedVersion := by
  constructor
  · decide
  · intro h
    have : CleanErr.invalidEnumLabel = CleanErr.unsupportedVersion := by
      have h2 : enumClean { supportedFrom := some 10, enum := ["A", "B"] }
          (some (.inl "X")) (some 5) = .error .invalidEnumLabel := by decide
      rw [h2] at h
      exact Except.error.inj h
    exact CleanErr.noConfusion this

/-- C2 (amended): on a field whose `supported_from` exceeds the active
version, `clean` fails with `UnsupportedVersion` for every value that passes
the kind-specific pre-normalization — in the base/integer/text/choice cleans
for every value whatsoever.  However `EnumField`'s label-membership check and
`DateTimeField`'s timezone-awareness check run before the version check, so an
invalid enum label or a naive datetime yields the corresponding value error
instead of `UnsupportedVersion` (and `to_xml` performs no version check at
all). -/
theorem C2_version_gate_precedence :
    (∀ (f : IntFieldM) (v : Option Int) (ver : Option Nat),
        supportsVersion f.supportedFrom ver = false →
        integerClean f v ver = .error .unsupportedVersion)
    ∧ (∀ (f : TextFieldM) (v : Option String) (ver : Option Nat),
        supportsVersion f.supportedFrom ver = false →
        textClean f v ver = .error .unsupportedVersion)
    ∧ (∀ (f : ChoiceFieldM) (v : Option String) (ver : Option Nat),
        supportsVersion f.supportedFrom ver = false →
        choiceClean f v ver = .error .unsupportedVersion)
    ∧ (∀ (f : EnumFieldM) (v : Option (String ⊕ Int)) (ver : Option Nat),
        supportsVersion f.supportedFrom ver = false →
        (∀ s, v = some (.inl s) → s ∈ f.enum) →
        enumClean f v ver = .error .unsupportedVersion)
    ∧ (∀ (f : EnumFieldM) (s : String) (ver : Option Nat),
        s ∉ f.enum →
        enumClean f (some (.inl s)) ver = .error .invalidEnumLabel)
    ∧ (∀ (f : DateTimeFieldM) (v : Option EWSDateTimeM) (ver : Option Nat),
        supportsVersion f.supportedFrom ver = false →
        (∀ dt, v = some dt → dt.tz ≠ none) →
        dateTimeClean f v ver = .error .unsupportedVersion)
    ∧ (∀ (f : DateTimeFieldM) (dt : EWSDateTimeM) (ver : Option Nat),
        dt.tz = none →
        dateTimeClean f (some dt) ver = .error .naiveDatetime) := by
  have hint : ∀ (f : IntFieldM) (v : Option Int) (ver : Option Nat),
      supportsVersion f.supportedFrom ver = false →
      integerClean f v ver = .error .unsupportedVersion := by
    intro f v ver h
    rw [integerClean_eq, fieldCleanBase_unsupported _ _ _ _ _ h]
  have htext : ∀ (f : TextFieldM) (v : Option String) (ver : Option Nat),
      supportsVersion f.supportedFrom ver = false →
      textClean f v ver = .error .unsupportedVersion := by
    intro f v ver h
    show (match fieldCleanBase f.supportedFrom f.isRequired f.default v ver with
      | .error e => Except.error e
      | .ok none => Except.ok none
      | .ok (some w) =>
        match f.maxLength with
        | some m =>
          if m ≠ 0 ∧ m < w.length then Except.error CleanErr.lengthExceeded
          else Except.ok (some w)
        | none => Except.ok (some w))
        = Except.error CleanErr.unsupportedVersion
    rw [fieldCleanBase_unsupported _ _ _ _ _ h]
  refine ⟨hint, htext, ?_, ?_, ?_, ?_, ?_⟩
  · intro f v ver h
    show (match textClean (choiceAsText f) v ver with
      | .error e => Except.error e
      | .ok none => Except.ok none
      | .ok (some s) =>
        match f.choices.find? (fun c => c.value = s) with
        | some c =>
          if choiceSupports c ver then Except.ok (some s)
          else Except.error CleanErr.unsupportedVersion
        | none => Except.error CleanErr.invalidChoice)
        = Except.error CleanErr.unsupportedVersion
    rw [htext (choiceAsText f) v ver h]
  · intro f v ver h hmem
    cases v with
    | none =>
      rw [enumClean_none_eq]
      exact hint _ _ _ h
    | some x =>
      cases x with
      | inl s =>
        rw [enumClean_inl_eq, if_pos (hmem s rfl)]
        exact hint _ _ _ h
      | inr n =>
        rw [enumClean_inr_eq]
        exact hint _ _ _ h
  · intro f s ver h
    rw [enumClean_inl_eq, if_neg h]
  · intro f v ver h hz
    cases v with
    | none =>
      show fieldCleanBase f.supportedFrom f.isRequired f.default none ver
        = Except.error CleanErr.unsupportedVersion
      exact fieldCleanBase_unsupported _ _ _ _ _ h
    | some dt =>
      show (if dt.tz = none then Except.error CleanErr.naiveDatetime
        else fieldCleanBase f.supportedFrom f.isRequired f.default (some dt) ver)
        = Except.error CleanErr.unsupportedVersion
      rw [if_neg (hz dt rfl)]
      exact fieldCleanBase_unsupported _ _ _ _ _ h
  · intro f dt ver h
    show (if dt.tz = none then Except.error CleanErr.naiveDatetime
      else fieldCleanBase f.supportedFrom f.isRequired f.default (some dt) ver)
      = Except.error CleanErr.naiveDatetime
    rw [if_pos h]

theorem C2_witness :
    supportsVersion
        (IntFieldM.supportedFrom { supportedFrom := some 10 }) (some 5) = false
      ∧ integerClean { supportedFrom := some 10 } none (some 5)
          = .error .unsupportedVersion :=
  ⟨by decide, C2_version_gate_precedence.1 { supportedFrom := some 10 } none
    (some 5) (by decide)⟩

/-! ## C6: label rules of resolve_field_path -/

/-- C6: resolving the bare name of an indexed-collection field fails with
`MissingLabel` in strict mode and succeeds with `label = None` otherwise (the
single-field kind substituting its canonical sub-field); and a present label
that is not among the version-supported labels fails with `InvalidLabel` in
both modes. -/
theorem C6_indexed_label_rules (folder : FolderM) (nm : String) (vc : ValueClsM)
    (hfind : getItemFieldByName folder nm = some (.indexed nm vc))
    (hsplit : split_field_path nm = (nm, none, none)) :
    resolve_field_path nm folder true = .error .missingLabel
    ∧ resolve_field_path nm folder false =
        .ok (.indexed nm vc, none,
          if vc.idxKind = .single then some (valueFieldM vc) else none)
    ∧ (∀ (p lbl : String) (sub : Option String) (strict : Bool),
        split_field_path p = (nm, some lbl, sub) → lbl ≠ "" →
        lbl ∉ supportedChoiceValues vc.labelChoices folder.version →
        resolve_field_path p folder strict = .error .invalidLabel) := by
  refine ⟨?_, ?_, ?_⟩
  · simp [resolve_field_path, hsplit, hfind, truthy]
  · cases hk : vc.idxKind with
    | single => simp [resolve_field_path, hsplit, hfind, truthy, hk]
    | multi => simp [resolve_field_path, hsplit, hfind, truthy, hk]
  · intro p lbl sub strict hp hlbl hmem
    simp [resolve_field_path, hp, hfind, truthy, hlbl, hmem]

theorem C6_witness :
    resolve_field_path "phone_numbers"
        ⟨[.indexed "phone_numbers"
          ⟨.single, [⟨"Home", none⟩, ⟨"Business", none⟩], [⟨"phone_number"⟩]⟩],
         some 5⟩ true = .error .missingLabel ∧
    resolve_field_path "phone_numbers"
        ⟨[.indexed "phone_numbers"
          ⟨.single, [⟨"Home", none⟩, ⟨"Business", none⟩], [⟨"phone_number"⟩]⟩],
         some 5⟩ false
      = .ok (.indexed "phone_numbers"
          ⟨.single, [⟨"Home", none⟩, ⟨"Business", none⟩], [⟨"phone_number"⟩]⟩,
          none, some ⟨"phone_number"⟩) := by
  have h := C6_indexed_label_rules
    ⟨[.indexed "phone_numbers"
      ⟨.single, [⟨"Home", none⟩, ⟨"Business", none⟩], [⟨"phone_number"⟩]⟩],
     some 5⟩ "phone_numbers"
    ⟨.single, [⟨"Home", none⟩, ⟨"Business", none⟩], [⟨"phone_number"⟩]⟩
    (by decide) (by decide)
  refine ⟨h.1, ?_⟩
  rw [h.2.1]
  decide

/-! ## C7: expand as a Cartesian product -/

/-- C7: `FieldPath.expand` yields the Cartesian product of (the fixed label if
set, else all version-supported labels) with (the fixed sub-field if set, else
all declared sub-fields): a non-indexed path expands to itself alone, a path
with label and sub-field both fixed yields exactly that one path, and a fully
wildcard indexed path yields `|labels| * |subfields|` paths, distinct whenever
labels and sub-fields are. -/
theorem C7_expand_cartesian_product :
    (∀ (fp : FieldPathM) (ver : Option Nat) (n : String),
        fp.field = .plain n → expandPath fp ver = [fp])
    ∧ (∀ (nm : String) (vc : ValueClsM) (l : String) (sf : SubFieldM)
        (ver : Option Nat), l ≠ "" →
        expandPath ⟨.indexed nm vc, some l, some sf⟩ ver
          = [⟨.indexed nm vc, some l, some sf⟩])
    ∧ (∀ (nm : String) (vc : ValueClsM) (ver : Option Nat),
        expandPath ⟨.indexed nm vc, none, none⟩ ver
          = ((supportedChoiceValues vc.labelChoices ver) ×ˢ vc.fields).map
              (fun p => ⟨.indexed nm vc, some p.1, some p.2⟩))
    ∧ (∀ (nm : String) (vc : ValueClsM) (ver : Option Nat),
        (expandPath ⟨.indexed nm vc, none, none⟩ ver).length
          = (supportedChoiceValues vc.labelChoices ver).length * vc.fields.length)
    ∧ (∀ (nm : String) (vc : ValueClsM) (ver : Option Nat),
        (supportedChoiceValues vc.labelChoices ver).Nodup → vc.fields.Nodup →
        (expandPath ⟨.indexed nm vc, none, none⟩ ver).Nodup) := by
  have hprod : ∀ (nm : String) (vc : ValueClsM) (ver : Option Nat),
      expandPath ⟨.indexed nm vc, none, none⟩ ver
        = ((supportedChoiceValues vc.labelChoices ver) ×ˢ vc.fields).map
            (fun p => ⟨.indexed nm vc, some p.1, some p.2⟩) := by
    intro nm vc ver
    simp only [expandPath, truthy, supportedFieldsM, SProd.sprod, List.product,
      List.map_flatMap, List.map_map]
    rfl
  refine ⟨?_, ?_, hprod, ?_, ?_⟩
  · intro fp ver n h
    rcases fp with ⟨fld, l, s⟩
    simp only at h
    subst h
    rfl
  · intro nm vc l sf ver h
    simp [expandPath, truthy, h]
  · intro nm vc ver
    rw [hprod]
    simp [List.length_product]
  · intro nm vc ver h1 h2
    rw [hprod]
    refine List.Nodup.map ?_ (List.Nodup.product h1 h2)
    intro p q hpq
    simp only [FieldPathM.mk.injEq, Option.some.injEq, true_and] at hpq
    exact Prod.ext hpq.1 hpq.2

theorem C7_witness :
    expandPath ⟨.indexed "physical_addresses"
        ⟨.multi, [⟨"Home", none⟩, ⟨"Business", none⟩],
         [⟨"street"⟩, ⟨"city"⟩, ⟨"state"⟩]⟩, some "Home", some ⟨"street"⟩⟩ none
      = [⟨.indexed "physical_addresses"
          ⟨.multi, [⟨"Home", none⟩, ⟨"Business", none⟩],
           [⟨"street"⟩, ⟨"city"⟩, ⟨"state"⟩]⟩, some "Home", some ⟨"street"⟩⟩]
    ∧ (expandPath ⟨.indexed "physical_addresses"
        ⟨.multi, [⟨"Home", none⟩, ⟨"Business", none⟩],
         [⟨"street"⟩, ⟨"city"⟩, ⟨"state"⟩]⟩, none, none⟩ none).length = 2 * 3
    ∧ (expandPath ⟨.indexed "physical_addresses"
        ⟨.multi, [⟨"Home", none⟩, ⟨"Business", none⟩],
         [⟨"street"⟩, ⟨"city"⟩, ⟨"state"⟩]⟩, none, none⟩ none).Nodup := by
  refine ⟨C7_expand_cartesian_product.2.1 "physical_addresses" _ "Home" ⟨"street"⟩
    none (by decide), ?_, ?_⟩
  · rw [C7_expand_cartesian_product.2.2.2.1 "physical_addresses"
      ⟨.multi, [⟨"Home", none⟩, ⟨"Business", none⟩],
       [⟨"street"⟩, ⟨"city"⟩, ⟨"state"⟩]⟩ none]
    decide
  · exact C7_expand_cartesian_product.2.2.2.2 "physical_addresses"
      ⟨.multi, [⟨"Home", none⟩, ⟨"Business", none⟩],
       [⟨"street"⟩, ⟨"city"⟩, ⟨"state"⟩]⟩ none (by decide) (by decide)

/-! ## C5: idempotence and label/position interchange of EnumField.clean -/

theorem fieldCleanBase_sup_none_eq {α : Type} (sf : Option Nat) (req : Bool)
    (d : Option α) (ver : Option Nat) (hv : supportsVersion sf ver = true) :
    fieldCleanBase sf req d none ver =
      if req = true ∧ d.isNone = true then Except.error CleanErr.missingRequired
      else Except.ok d := by
  unfold fieldCleanBase
  rw [hv]
  rw [if_neg (by simp)]

theorem fieldCleanBase_sup_some_eq {α : Type} (sf : Option Nat) (req : Bool)
    (d : Option α) (x : α) (ver : Option Nat) (hv : supportsVersion sf ver = true) :
    fieldCleanBase sf req d (some x) ver = Except.ok (some x) := by
  unfold fieldCleanBase
  rw [hv]
  rw [if_neg (by simp)]

theorem fieldCleanBase_ok {α : Type} (sf : Option Nat) (req : Bool)
    (d v : Option α) (ver : Option Nat) (o : Option α)
    (h : fieldCleanBase sf req d v ver = .ok o) :
    supportsVersion sf ver = true
    ∧ (v = none → o = d ∧ (req = true → d ≠ none))
    ∧ (∀ x, v = some x → o = some x) := by
  have hv : supportsVersion sf ver = true := by
    by_contra hh
    rw [Bool.not_eq_true] at hh
    rw [fieldCleanBase_unsupported sf req d v ver hh] at h
    exact Except.noConfusion h
  refine ⟨hv, ?_, ?_⟩
  · intro he
    subst he
    rw [fieldCleanBase_sup_none_eq sf req d ver hv] at h
    by_cases hr : req = true ∧ d.isNone = true
    · rw [if_pos hr] at h
      exact absurd h (by simp)
    · rw [if_neg hr] at h
      injection h with h2
      refine ⟨h2.symm, ?_⟩
      intro hreq hdn
      exact hr ⟨hreq, by rw [hdn]; rfl⟩
  · intro x hx
    subst hx
    rw [fieldCleanBase_sup_some_eq sf req d x ver hv] at h
    injection h with h2
    exact h2.symm

theorem intRangeCheck_ok_shape (mn mx : Option Int) (x : Int) (y : Option Int)
    (h : intRangeCheck mn mx x = .ok y) :
    y = some x ∧ intRangeCheck mn mx x = .ok (some x) := by
  unfold intRangeCheck at h ⊢
  by_cases h1 : belowMin mn x = true
  · rw [if_pos h1] at h
    exact absurd h (by simp)
  · rw [if_neg h1] at h ⊢
    by_cases h2 : aboveMax mx x = true
    · rw [if_pos h2] at h
      exact absurd h (by simp)
    · rw [if_neg h2] at h ⊢
      injection h with h3
      exact ⟨h3.symm, rfl⟩

theorem integerClean_ok (f : IntFieldM) (v : Option Int) (ver : Option Nat)
    (y : Option Int) (h : integerClean f v ver = .ok y) :
    supportsVersion f.supportedFrom ver = true
    ∧ (y = none → f.default = none ∧ f.isRequired = false)
    ∧ (∀ k, y = some k → intRangeCheck f.fieldMin f.fieldMax k = .ok (some k)) := by
  rw [integerClean_eq] at h
  cases hb : fieldCleanBase f.supportedFrom f.isRequired f.default v ver with
  | error e =>
    rw [hb] at h
    exact absurd h (by simp)
  | ok o =>
    rw [hb] at h
    have hbase := fieldCleanBase_ok _ _ _ _ _ _ hb
    cases o with
    | none =>
      have h' : (Except.ok none : Except CleanErr (Option Int)) = .ok y := h
      injection h' with hy
      subst hy
      refine ⟨hbase.1, ?_, ?_⟩
      · intro _
        cases v with
        | none =>
          obtain ⟨ho, hreq⟩ := hbase.2.1 rfl
          constructor
          · exact ho.symm
          · cases hreq2 : f.isRequired with
            | false => rfl
            | true => exact absurd (ho.symm ▸ hreq hreq2).symm (by simp)
        | some x => exact absurd (hbase.2.2 x rfl) (by simp)
      · intro k hk
        exact absurd hk (by simp)
    | some x =>
      have h' : intRangeCheck f.fieldMin f.fieldMax x = .ok y := h
      obtain ⟨hy, hr⟩ := intRangeCheck_ok_shape _ _ _ _ h'
      subst hy
      refine ⟨hbase.1, by simp, ?_⟩
      intro k hk
      injection hk with h2
      rw [← h2]
      exact hr

theorem integerClean_refeed (f : IntFieldM) (ver : Option Nat) (y : Option Int)
    (hv : supportsVersion f.supportedFrom ver = true)
    (hnone : y = none → f.default = none ∧ f.isRequired = false)
    (hsome : ∀ k, y = some k →
      intRangeCheck f.fieldMin f.fieldMax k = .ok (some k)) :
    integerClean f y ver = .ok y := by
  cases y with
  | none =>
    obtain ⟨hd, hr⟩ := hnone rfl
    rw [integerClean_eq, fieldCleanBase_sup_none_eq _ _ _ _ hv, hd, hr]
    simp
  | some k =>
    rw [integerClean_eq, fieldCleanBase_sup_some_eq _ _ _ _ _ hv]
    exact hsome k rfl

theorem enumClean_idem (f : EnumFieldM) (x : Option (String ⊕ Int))
    (ver : Option Nat) (y : Option Int) (h : enumClean f x ver = .ok y) :
    enumClean f (y.map Sum.inr) ver = .ok y := by
  have hsup : ∃ v', enumSuper f v' ver = .ok y := by
    cases x with
    | none =>
      rw [enumClean_none_eq] at h
      exact ⟨none, h⟩
    | some w =>
      cases w with
      | inl s =>
        rw [enumClean_inl_eq] at h
        by_cases hm : s ∈ f.enum
        · rw [if_pos hm] at h
          exact ⟨_, h⟩
        · rw [if_neg hm] at h
          exact absurd h (by simp)
      | inr n =>
        rw [enumClean_inr_eq] at h
        exact ⟨some n, h⟩
  obtain ⟨v', hs⟩ := hsup
  have hs' : integerClean
      { name := f.name, uriTail := f.uriTail, isRequired := f.isRequired,
        default := f.default, supportedFrom := f.supportedFrom,
        fieldMin := some 1, fieldMax := some (f.enum.length : Int) }
      v' ver = .ok y := hs
  have hok := integerClean_ok _ _ _ _ hs'
  cases y with
  | none =>
    show enumSuper f none ver = .ok none
    exact integerClean_refeed _ _ _ hok.1 (fun _ => hok.2.1 rfl)
      (fun k hk => absurd hk (by simp))
  | some k =>
    show enumSuper f (some k) ver = .ok (some k)
    refine integerClean_refeed _ _ _ hok.1 (fun hh => absurd hh (by simp)) ?_
    intro k' hk'
    injection hk' with h2
    rw [← h2]
    exact hok.2.2 k rfl

theorem enumConvertList_inr (f : EnumFieldM) (l : List Int) :
    enumConvertList f (l.map Sum.inr) = .ok l := by
  induction l with
  | nil => rfl
  | cons k rest ih =>
    show (match enumConvert f (.inr k) with
      | .error e => Except.error e
      | .ok n =>
        match enumConvertList f (rest.map Sum.inr) with
        | .error e => Except.error e
        | .ok ns => Except.ok (n :: ns)) = Except.ok (k :: rest)
    rw [enumConvert_inr_eq, ih]

theorem enumListAfterConvert_ok (f : EnumFieldM) (l2 : List Int)
    (ver : Option Nat) (y : Option (List Int))
    (h : enumListAfterConvert f l2 ver = .ok y) : y = some l2 := by
  unfold enumListAfterConvert at h
  by_cases h0 : l2.length = 0
  · rw [if_pos h0] at h
    exact absurd h (by simp)
  · rw [if_neg h0] at h
    by_cases h1 : l2.dedup.length < l2.length
    · rw [if_pos h1] at h
      exact absurd h (by simp)
    · rw [if_neg h1] at h
      by_cases h2 : supportsVersion f.supportedFrom ver = false
      · rw [if_pos h2] at h
        exact absurd h (by simp)
      · rw [if_neg h2] at h
        cases hr : enumListRange f l2 with
        | error e =>
          rw [hr] at h
          exact absurd h (by simp)
        | ok u =>
          rw [hr] at h
          have h' : (Except.ok (some l2) : Except CleanErr (Option (List Int)))
              = .ok y := h
          injection h' with h3
          exact h3.symm

theorem enumListClean_idem (f : EnumFieldM) (x : Option (List (String ⊕ Int)))
    (ver : Option Nat) (y : Option (List Int))
    (h : enumListClean f x ver = .ok y) :
    enumListClean f (y.map (List.map Sum.inr)) ver = .ok y := by
  cases x with
  | none =>
    have h' : (Except.error CleanErr.pyTypeError
        : Except CleanErr (Option (List Int))) = .ok y := h
    exact absurd h' (by simp)
  | some l =>
    rw [enumListClean_some_eq] at h
    cases hc : enumConvertList f l with
    | error e =>
      rw [hc] at h
      have h' : (Except.error e : Except CleanErr (Option (List Int))) = .ok y := h
      exact absurd h' (by simp)
    | ok l2 =>
      rw [hc] at h
      have h' : enumListAfterConvert f l2 ver = .ok y := h
      have hy := enumListAfterConvert_ok _ _ _ _ h'
      subst hy
      show enumListClean f (some (l2.map Sum.inr)) ver = .ok (some l2)
      rw [enumListClean_some_eq, enumConvertList_inr]
      exact h'

theorem findIdx_nodup_getElem (l : List String) (j : Nat) (hj : j < l.length)
    (h : l.Nodup) : l.findIdx (fun x => x = l[j]) = j := by
  induction l generalizing j with
  | nil => simp at hj
  | cons a t ih =>
    cases j with
    | zero => simp [List.findIdx_cons]
    | succ j' =>
      have hj' : j' < t.length := by simpa using hj
      have ha : a ∉ t := (List.nodup_cons.mp h).1
      have ht : t.Nodup := (List.nodup_cons.mp h).2
      simp only [List.getElem_cons_succ]
      rw [List.findIdx_cons]
      have hd : (decide (a = t[j'])) = false := by
        rw [decide_eq_false_iff_not]
        intro he
        exact ha (he ▸ List.getElem_mem hj')
      rw [hd]
      simp only [cond_false]
      rw [ih j' hj' ht]

theorem enumRangeCheck_ok (len : Nat) (k : Int) (h1 : 1 ≤ k)
    (h2 : k ≤ (len : Int)) :
    intRangeCheck (some 1) (some (len : Int)) k = .ok (some k) := by
  unfold intRangeCheck
  rw [if_neg (by simp [belowMin]; omega), if_neg (by simp [aboveMax]; omega)]

theorem enumSuper_in_range (f : EnumFieldM) (i : Int) (ver : Option Nat)
    (hv : supportsVersion f.supportedFrom ver = true)
    (h1 : 1 ≤ i) (h2 : i ≤ (f.enum.length : Int)) :
    enumSuper f (some i) ver = .ok (some i) := by
  show integerClean
    { name := f.name, uriTail := f.uriTail, isRequired := f.isRequired,
      default := f.default, supportedFrom := f.supportedFrom,
      fieldMin := some 1, fieldMax := some (f.enum.length : Int) }
    (some i) ver = .ok (some i)
  rw [integerClean_eq, fieldCleanBase_sup_some_eq _ _ _ _ _ hv]
  exact enumRangeCheck_ok f.enum.length i h1 h2

theorem enumClean_interchange (f : EnumFieldM) (i : Int) (ver : Option Nat)
    (hnd : f.enum.Nodup) (h1 : 1 ≤ i) (h2 : i ≤ (f.enum.length : Int))
    (hv : supportsVersion f.supportedFrom ver = true) :
    enumClean f (some (.inl (f.enum.getD (i - 1).toNat ""))) ver = .ok (some i)
    ∧ enumClean f (some (.inr i)) ver = .ok (some i) := by
  have hlt : (i - 1).toNat < f.enum.length := by omega
  have hget : f.enum.getD (i - 1).toNat "" = f.enum[(i - 1).toNat] := by
    rw [List.getD_eq_getElem?_getD, List.getElem?_eq_getElem hlt]
    rfl
  have hmem : f.enum.getD (i - 1).toNat "" ∈ f.enum := by
    rw [hget]
    exact List.getElem_mem hlt
  have hidx : f.enum.findIdx (fun x => x = f.enum.getD (i - 1).toNat "")
      = (i - 1).toNat := by
    rw [hget]
    exact findIdx_nodup_getElem _ _ hlt hnd
  constructor
  · rw [enumClean_inl_eq, if_pos hmem, hidx]
    have hcast : (((i - 1).toNat : Int) + 1) = i := by omega
    rw [hcast]
    exact enumSuper_in_range f i ver hv h1 h2
  · rw [enumClean_inr_eq]
    exact enumSuper_in_range f i ver hv h1 h2

/-- C5: for enumerated fields `clean` is idempotent on every accepted input —
re-cleaning an accepted result returns it unchanged, in both the scalar and
the list variants — and a string label and its 1-based integer position are
accepted interchangeably, normalizing to the same 1-based integer. -/
theorem C5_enum_clean_idempotent_interchangeable :
    (∀ (f : EnumFieldM) (x : Option (String ⊕ Int)) (ver : Option Nat)
        (y : Option Int),
      enumClean f x ver = .ok y → enumClean f (y.map Sum.inr) ver = .ok y)
    ∧ (∀ (f : EnumFieldM) (x : Option (List (String ⊕ Int))) (ver : Option Nat)
        (y : Option (List Int)),
      enumListClean f x ver = .ok y →
      enumListClean f (y.map (List.map Sum.inr)) ver = .ok y)
    ∧ (∀ (f : EnumFieldM) (i : Int) (ver : Option Nat),
      f.enum.Nodup → 1 ≤ i → i ≤ (f.enum.length : Int) →
      supportsVersion f.supportedFrom ver = true →
      enumClean f (some (.inl (f.enum.getD (i - 1).toNat ""))) ver = .ok (some i)
      ∧ enumClean f (some (.inr i)) ver = .ok (some i)) :=
  ⟨enumClean_idem, enumListClean_idem, enumClean_interchange⟩

theorem C5_witness :
    enumClean { enum := ["A", "B", "C"] } (some (.inr 2)) none = .ok (some 2)
    ∧ enumListClean { enum := ["A", "B", "C"] } (some [.inr 1, .inr 3]) none
        = .ok (some [1, 3])
    ∧ enumClean { enum := ["A", "B", "C"] } (some (.inl "B")) none = .ok (some 2) := by
  refine ⟨?_, ?_, ?_⟩
  · exact C5_enum_clean_idempotent_interchangeable.1 { enum := ["A", "B", "C"] }
      (some (.inl "B")) none (some 2) (by decide)
  · exact C5_enum_clean_idempotent_interchangeable.2.1 { enum := ["A", "B", "C"] }
      (some [.inl "A", .inr 3]) none (some [1, 3]) (by decide)
  · exact (C5_enum_clean_idempotent_interchangeable.2.2 { enum := ["A", "B", "C"] }
      2 none (by decide) (by decide) (by decide) (by decide)).1

/-! ## Numeral printing and parsing lemmas -/

theorem parseNatGo_append (l1 l2 : List Char) (acc : Nat) :
    parseNatGo acc (l1 ++ l2) =
      match parseNatGo acc l1 with
      | some m => parseNatGo m l2
      | none => none := by
  induction l1 generalizing acc with
  | nil => rfl
  | cons c cs ih =>
    simp only [List.cons_append, parseNatGo]
    cases hd : parseDigit c with
    | some d => exact ih (acc * 10 + d)
    | none => rfl

theorem parseDigit_digitChar (d : Nat) (h : d < 10) :
    parseDigit (digitChar d) = some d := by
  have hall : ∀ d2, d2 < 10 → parseDigit (digitChar d2) = some d2 := by decide
  exact hall d h

theorem natDigits_all_digit (n : Nat) : ∀ c ∈ natDigits n, c ∈ digitChars := by
  induction n using Nat.strong_induction_on with
  | _ n ih =>
    intro c hc
    by_cases h : n < 10
    · rw [natDigits, dif_pos h] at hc
      have hdc : ∀ d, d < 10 → digitChar d ∈ digitChars := by decide
      simp at hc
      rw [hc]
      exact hdc n h
    · rw [natDigits, dif_neg h] at hc
      rcases List.mem_append.mp hc with h1 | h2
      · exact ih (n / 10) (Nat.div_lt_self (by omega) (by omega)) c h1
      · have hdc : ∀ d, d < 10 → digitChar d ∈ digitChars := by decide
        simp at h2
        rw [h2]
        exact hdc (n % 10) (Nat.mod_lt _ (by omega))

theorem parseNatGo_digits (n : Nat) : ∀ acc,
    parseNatGo acc (natDigits n) = some (acc * mag n + n) := by
  induction n using Nat.strong_induction_on with
  | _ n ih =>
    intro acc
    by_cases h : n < 10
    · rw [natDigits, dif_pos h, mag, dif_pos h]
      show (match parseDigit (digitChar n) with
        | some d => parseNatGo (acc * 10 + d) []
        | none => none) = some (acc * 10 + n)
      rw [parseDigit_digitChar n h]
      rfl
    · rw [natDigits, dif_neg h, mag, dif_neg h, parseNatGo_append,
        ih (n / 10) (Nat.div_lt_self (by omega) (by omega)) acc]
      show parseNatGo (acc * mag (n / 10) + n / 10) [digitChar (n % 10)]
        = some (acc * (10 * mag (n / 10)) + n)
      show (match parseDigit (digitChar (n % 10)) with
        | some d => parseNatGo ((acc * mag (n / 10) + n / 10) * 10 + d) []
        | none => none) = some (acc * (10 * mag (n / 10)) + n)
      rw [parseDigit_digitChar (n % 10) (Nat.mod_lt _ (by omega))]
      show some ((acc * mag (n / 10) + n / 10) * 10 + n % 10)
        = some (acc * (10 * mag (n / 10)) + n)
      have h1 : n / 10 * 10 + n % 10 = n := by omega
      congr 1
      calc (acc * mag (n / 10) + n / 10) * 10 + n % 10
          = acc * mag (n / 10) * 10 + (n / 10 * 10 + n % 10) := by ring
        _ = acc * (10 * mag (n / 10)) + n := by rw [h1]; ring

theorem natDigits_ne_nil (n : Nat) : natDigits n ≠ [] := by
  rw [natDigits]
  by_cases h : n < 10
  · rw [dif_pos h]
    simp
  · rw [dif_neg h]
    simp

theorem parseNatChars_natDigits (n : Nat) : parseNatChars (natDigits n) = some n := by
  cases hl : natDigits n with
  | nil => exact absurd hl (natDigits_ne_nil n)
  | cons c cs =>
    show parseNatGo 0 (c :: cs) = some n
    rw [← hl, parseNatGo_digits n 0]
    simp

theorem parseIntChars_cons (c : Char) (rest : List Char) :
    parseIntChars (c :: rest) =
      if c = '-' then (parseNatChars rest).map (fun n => -(n : Int))
      else if c = '+' then (parseNatChars rest).map (fun n => (n : Int))
      else (parseNatChars (c :: rest)).map (fun n => (n : Int)) := rfl

theorem parseIntChars_intDigits (v : Int) : parseIntChars (intDigits v) = some v := by
  unfold intDigits
  by_cases hv : v < 0
  · rw [if_pos hv, parseIntChars_cons, if_pos rfl, parseNatChars_natDigits]
    simp
    omega
  · rw [if_neg hv]
    have hdp : ∀ c ∈ digitChars, c ≠ '-' ∧ c ≠ '+' := by decide
    cases hl : natDigits v.toNat with
    | nil => exact absurd hl (natDigits_ne_nil v.toNat)
    | cons c cs =>
      have hcd : c ∈ digitChars :=
        natDigits_all_digit v.toNat c (by rw [hl]; simp)
      rw [parseIntChars_cons, if_neg (hdp c hcd).1, if_neg (hdp c hcd).2,
        ← hl, parseNatChars_natDigits]
      simp
      omega

/-! ## Base64 round-trip lemmas -/

theorem decChar6_encChar6 : ∀ n, n < 64 → decChar6 (encChar6 n) = some n := by decide

theorem encChar6_ne_eq : ∀ n, n < 64 → encChar6 n ≠ '=' := by decide

theorem b64encode_ne_nil : ∀ v : List Nat, v ≠ [] → b64encode v ≠ []
  | [], h => absurd rfl h
  | [_], _ => by simp [b64encode]
  | [_, _], _ => by simp [b64encode]
  | _ :: _ :: _ :: _, _ => by simp [b64encode]

theorem b64decode_encode (v : List Nat) (h : ∀ b ∈ v, b < 256) :
    b64decode (b64encode v) = some v := by
  induction v using b64encode.induct with
  | case1 => rfl
  | case2 b0 =>
    have h0 : b0 < 256 := h b0 (by simp)
    show b64decode [encChar6 (b0 / 4), encChar6 (b0 % 4 * 16), '=', '='] = some [b0]
    simp only [b64decode]
    rw [decChar6_encChar6 (b0 / 4) (by omega),
      decChar6_encChar6 (b0 % 4 * 16) (by omega)]
    show some [b0 / 4 * 4 + b0 % 4 * 16 / 16] = some [b0]
    have he : b0 / 4 * 4 + b0 % 4 * 16 / 16 = b0 := by omega
    rw [he]
  | case3 b0 b1 =>
    have h0 : b0 < 256 := h b0 (by simp)
    have h1 : b1 < 256 := h b1 (by simp)
    show b64decode [encChar6 (b0 / 4), encChar6 (b0 % 4 * 16 + b1 / 16),
      encChar6 (b1 % 16 * 4), '='] = some [b0, b1]
    simp only [b64decode]
    rw [decChar6_encChar6 (b0 / 4) (by omega),
      decChar6_encChar6 (b0 % 4 * 16 + b1 / 16) (by omega)]
    show (if encChar6 (b1 % 16 * 4) = '=' then
        if ('=' : Char) = '=' ∧ ([] : List Char) = [] then
          some [b0 / 4 * 4 + (b0 % 4 * 16 + b1 / 16) / 16]
        else none
      else
        match decChar6 (encChar6 (b1 % 16 * 4)) with
        | some sc =>
          if ('=' : Char) = '=' then
            if ([] : List Char) = [] then
              some [b0 / 4 * 4 + (b0 % 4 * 16 + b1 / 16) / 16,
                (b0 % 4 * 16 + b1 / 16) % 16 * 16 + sc / 4]
            else none
          else
            match decChar6 '=' with
            | some sd =>
              Option.map (fun bs => (b0 / 4 * 4 + (b0 % 4 * 16 + b1 / 16) / 16)
                :: ((b0 % 4 * 16 + b1 / 16) % 16 * 16 + sc / 4)
                :: (sc % 4 * 64 + sd) :: bs) (b64decode [])
            | none => none
        | none => none) = some [b0, b1]
    rw [if_neg (encChar6_ne_eq (b1 % 16 * 4) (by omega))]
    rw [decChar6_encChar6 (b1 % 16 * 4) (by omega)]
    show some [b0 / 4 * 4 + (b0 % 4 * 16 + b1 / 16) / 16,
      (b0 % 4 * 16 + b1 / 16) % 16 * 16 + b1 % 16 * 4 / 4] = some [b0, b1]
    have he0 : b0 / 4 * 4 + (b0 % 4 * 16 + b1 / 16) / 16 = b0 := by omega
    have he1 : (b0 % 4 * 16 + b1 / 16) % 16 * 16 + b1 % 16 * 4 / 4 = b1 := by omega
    rw [he0, he1]
  | case4 b0 b1 b2 rest ih =>
    have h0 : b0 < 256 := h b0 (by simp)
    have h1 : b1 < 256 := h b1 (by simp)
    have h2 : b2 < 256 := h b2 (by simp)
    have hrest : ∀ b ∈ rest, b < 256 := fun b hb => h b (by simp [hb])
    show b64decode (encChar6 (b0 / 4) :: encChar6 (b0 % 4 * 16 + b1 / 16) ::
      encChar6 (b1 % 16 * 4 + b2 / 64) :: encChar6 (b2 % 64) :: b64encode rest)
      = some (b0 :: b1 :: b2 :: rest)
    simp only [b64decode]
    rw [decChar6_encChar6 (b0 / 4) (by omega),
      decChar6_encChar6 (b0 % 4 * 16 + b1 / 16) (by omega)]
    show (if encChar6 (b1 % 16 * 4 + b2 / 64) = '=' then
        if encChar6 (b2 % 64) = '=' ∧ b64encode rest = [] then
          some [b0 / 4 * 4 + (b0 % 4 * 16 + b1 / 16) / 16]
        else none
      else
        match decChar6 (encChar6 (b1 % 16 * 4 + b2 / 64)) with
        | some sc =>
          if encChar6 (b2 % 64) = '=' then
            if b64encode rest = [] then
              some [b0 / 4 * 4 + (b0 % 4 * 16 + b1 / 16) / 16,
                (b0 % 4 * 16 + b1 / 16) % 16 * 16 + sc / 4]
            else none
          else
            match decChar6 (encChar6 (b2 % 64)) with
            | some sd =>
              Option.map (fun bs => (b0 / 4 * 4 + (b0 % 4 * 16 + b1 / 16) / 16)
                :: ((b0 % 4 * 16 + b1 / 16) % 16 * 16 + sc / 4)
                :: (sc % 4 * 64 + sd) :: bs) (b64decode (b64encode rest))
            | none => none
        | none => none) = some (b0 :: b1 :: b2 :: rest)
    rw [if_neg (encChar6_ne_eq (b1 % 16 * 4 + b2 / 64) (by omega))]
    rw [decChar6_encChar6 (b1 % 16 * 4 + b2 / 64) (by omega)]
    show (if encChar6 (b2 % 64) = '=' then
        if b64encode rest = [] then
          some [b0 / 4 * 4 + (b0 % 4 * 16 + b1 / 16) / 16,
            (b0 % 4 * 16 + b1 / 16) % 16 * 16 + (b1 % 16 * 4 + b2 / 64) / 4]
        else none
      else
        match decChar6 (encChar6 (b2 % 64)) with
        | some sd =>
          Option.map (fun bs => (b0 / 4 * 4 + (b0 % 4 * 16 + b1 / 16) / 16)
            :: ((b0 % 4 * 16 + b1 / 16) % 16 * 16 + (b1 % 16 * 4 + b2 / 64) / 4)
            :: ((b1 % 16 * 4 + b2 / 64) % 4 * 64 + sd) :: bs)
            (b64decode (b64encode rest))
        | none => none) = some (b0 :: b1 :: b2 :: rest)
    rw [if_neg (encChar6_ne_eq (b2 % 64) (by omega))]
    rw [decChar6_encChar6 (b2 % 64) (by omega)]
    show Option.map (fun bs => (b0 / 4 * 4 + (b0 % 4 * 16 + b1 / 16) / 16)
        :: ((b0 % 4 * 16 + b1 / 16) % 16 * 16 + (b1 % 16 * 4 + b2 / 64) / 4)
        :: ((b1 % 16 * 4 + b2 / 64) % 4 * 64 + b2 % 64) :: bs)
        (b64decode (b64encode rest)) = some (b0 :: b1 :: b2 :: rest)
    rw [ih hrest]
    show some ((b0 / 4 * 4 + (b0 % 4 * 16 + b1 / 16) / 16)
        :: ((b0 % 4 * 16 + b1 / 16) % 16 * 16 + (b1 % 16 * 4 + b2 / 64) / 4)
        :: ((b1 % 16 * 4 + b2 / 64) % 4 * 64 + b2 % 64) :: rest)
      = some (b0 :: b1 :: b2 :: rest)
    have he0 : b0 / 4 * 4 + (b0 % 4 * 16 + b1 / 16) / 16 = b0 := by omega
    have he1 : (b0 % 4 * 16 + b1 / 16) % 16 * 16 + (b1 % 16 * 4 + b2 / 64) / 4
        = b1 := by omega
    have he2 : (b1 % 16 * 4 + b2 / 64) % 4 * 64 + b2 % 64 = b2 := by omega
    rw [he0, he1, he2]

/-! ## Single-character split and zero-padding lemmas (date text) -/

theorem cgo_sep_char (sep : Char) (rest seg : List Char)
    (hs : ∀ c ∈ seg, c ≠ sep) : ∀ acc,
    cgo sep acc (seg ++ sep :: rest) = (acc ++ seg) :: cgo sep [] rest := by
  induction seg with
  | nil =>
    intro acc
    simp [cgo]
  | cons c cs ih =>
    intro acc
    simp only [List.cons_append, cgo]
    rw [if_neg (hs c (by simp))]
    have hih := ih (fun c2 hc2 => hs c2 (by simp [hc2])) (acc ++ [c])
    simp only [List.cons_append, List.append_assoc, List.append_eq,
      List.nil_append] at hih ⊢
    rw [hih]

theorem cgo_last_char (sep : Char) (seg : List Char)
    (hs : ∀ c ∈ seg, c ≠ sep) : ∀ acc, cgo sep acc seg = [acc ++ seg] := by
  induction seg with
  | nil =>
    intro acc
    simp [cgo]
  | cons c cs ih =>
    intro acc
    simp only [cgo]
    rw [if_neg (hs c (by simp))]
    have hih := ih (fun c2 hc2 => hs c2 (by simp [hc2])) (acc ++ [c])
    simp only [List.cons_append, List.append_assoc, List.append_eq,
      List.nil_append] at hih ⊢
    rw [hih]

theorem padZeros_digit (k n : Nat) : ∀ c ∈ padZeros k (natDigits n), c ∈ digitChars := by
  intro c hc
  rcases List.mem_append.mp hc with h1 | h2
  · have : c = '0' := List.eq_of_mem_replicate h1
    rw [this]
    decide
  · exact natDigits_all_digit n c h2

theorem parseNatGo_replicate_zero (z : Nat) : ∀ acc,
    parseNatGo acc (List.replicate z '0') = some (acc * 10 ^ z) := by
  induction z with
  | zero =>
    intro acc
    simp [parseNatGo]
  | succ z ih =>
    intro acc
    show (match parseDigit '0' with
      | some d => parseNatGo (acc * 10 + d) (List.replicate z '0')
      | none => none) = some (acc * 10 ^ (z + 1))
    rw [show parseDigit '0' = some 0 from rfl]
    show parseNatGo (acc * 10 + 0) (List.replicate z '0') = some (acc * 10 ^ (z + 1))
    rw [ih (acc * 10 + 0)]
    congr 1
    ring

theorem padZeros_ne_nil (k n : Nat) : padZeros k (natDigits n) ≠ [] := by
  unfold padZeros
  intro hh
  rcases List.append_eq_nil.mp hh with ⟨_, h2⟩
  exact natDigits_ne_nil n h2

theorem parseNatChars_padZeros (k n : Nat) :
    parseNatChars (padZeros k (natDigits n)) = some n := by
  cases hl : padZeros k (natDigits n) with
  | nil => exact absurd hl (padZeros_ne_nil k n)
  | cons c cs =>
    show parseNatGo 0 (c :: cs) = some n
    rw [← hl]
    unfold padZeros
    rw [parseNatGo_append, parseNatGo_replicate_zero]
    show parseNatGo (0 * 10 ^ (k - (natDigits n).length)) (natDigits n) = some n
    rw [Nat.zero_mul, parseNatGo_digits n 0]
    simp

/-! ## C4: scalar round-trips -/

theorem childText_wrap (uriTail t : String) :
    childText uriTail (wrapParent (mkFieldElem uriTail t))
      = if t = "" then none else some t := by
  simp [childText, wrapParent, mkFieldElem, XmlElem.children, XmlElem.tag,
    XmlElem.text, List.find?]

theorem stringMk_eq_empty (l : List Char) : String.mk l = "" ↔ l = [] := by
  constructor
  · intro h
    have h2 := congrArg String.data h
    exact h2
  · intro h
    rw [h]

theorem findIdxQ_nodup_aux (l : List String) : ∀ (j : Nat) (_hj : j < l.length),
    l.Nodup → ∀ i, l.findIdx? (fun x => x = l[j]) i = some (i + j) := by
  induction l with
  | nil =>
    intro j hj
    simp at hj
  | cons a t ih =>
    intro j hj hnd i
    cases j with
    | zero =>
      rw [List.findIdx?_cons, if_pos (by simp)]
      rw [Nat.add_zero]
    | succ j' =>
      have hj' : j' < t.length := by simpa using hj
      have ha : a ∉ t := (List.nodup_cons.mp hnd).1
      have ht : t.Nodup := (List.nodup_cons.mp hnd).2
      simp only [List.getElem_cons_succ]
      rw [List.findIdx?_cons]
      have hd : (decide (a = t[j'])) = false := by
        rw [decide_eq_false_iff_not]
        intro he
        exact ha (he ▸ List.getElem_mem hj')
      rw [hd, if_neg (by simp), ih j' hj' ht (i + 1)]
      congr 1
      omega

theorem findIdxQ_nodup_getElem (l : List String) (j : Nat) (hj : j < l.length)
    (h : l.Nodup) : l.findIdx? (fun x => x = l[j]) = some j := by
  have haux := findIdxQ_nodup_aux l j hj h 0
  simpa using haux

theorem intDigits_ne_nil (v : Int) : intDigits v ≠ [] := by
  unfold intDigits
  by_cases hv : v < 0
  · rw [if_pos hv]
    simp
  · rw [if_neg hv]
    exact natDigits_ne_nil _

theorem dateText_ne_nil (dt : DateM) : dateText dt ≠ [] := by
  unfold dateText
  intro hh
  rcases List.append_eq_nil.mp hh with ⟨_, h2⟩
  exact List.noConfusion h2

/-- C4 (amended): for the scalar kinds whose codecs live in this module,
decoding an encoded value returns the value — unconditionally for boolean and
integer, and for enumerated (valid 1-based position, duplicate-free enum,
nonempty label), text (nonempty string), binary (nonempty byte string) and
date (valid month/day): values whose encoded text is empty (the empty string,
the empty byte string) instead decode to the field's default, because decode
reads `field_elem.text or None`. -/
theorem C4_scalar_roundtrip :
    (∀ (f : BoolFieldM) (v : Bool),
      booleanFromXml f (wrapParent (booleanToXml f v)) = (some v, []))
    ∧ (∀ (f : IntFieldM) (v : Int),
      integerFromXml f (wrapParent (integerToXml f v)) = (some v, []))
    ∧ (∀ (f : TextFieldM) (v : String), v ≠ "" →
      textFromXml f (wrapParent (textToXml f v)) = (some v, []))
    ∧ (∀ (f : EnumFieldM) (v : Int), f.enum.Nodup →
      1 ≤ v → v ≤ (f.enum.length : Int) → f.enum.getD (v - 1).toNat "" ≠ "" →
      (enumToXml f v).map (fun e => enumFromXml f (wrapParent e))
        = some (some v, []))
    ∧ (∀ (f : Base64FieldM) (v : List Nat), v ≠ [] → (∀ b ∈ v, b < 256) →
      base64FromXml f (wrapParent (base64ToXml f v)) = some (some v, []))
    ∧ (∀ (f : DateFieldM) (dt : DateM), 1 ≤ dt.month → dt.month ≤ 12 →
      1 ≤ dt.day → dt.day ≤ 31 →
      dateFromXml f (wrapParent (dateToXml f dt)) = (some dt, [])) := by
  refine ⟨?_, ?_, ?_, ?_, ?_, ?_⟩
  · intro f v
    cases v with
    | true =>
      show booleanFromXml f (wrapParent (mkFieldElem f.uriTail "true"))
        = (some true, [])
      unfold booleanFromXml
      rw [childText_wrap, if_neg (by decide)]
      show (if ("true" : String) = "true" then
          ((some true : Option Bool), ([] : List LogRec))
        else if ("true" : String) = "false" then (some false, [])
        else (none, [⟨.warning, "true", f.name⟩])) = (some true, [])
      rw [if_pos rfl]
    | false =>
      show booleanFromXml f (wrapParent (mkFieldElem f.uriTail "false"))
        = (some false, [])
      unfold booleanFromXml
      rw [childText_wrap, if_neg (by decide)]
      show (if ("false" : String) = "true" then
          ((some true : Option Bool), ([] : List LogRec))
        else if ("false" : String) = "false" then (some false, [])
        else (none, [⟨.warning, "false", f.name⟩])) = (some false, [])
      rw [if_neg (by decide), if_pos rfl]
  · intro f v
    unfold integerFromXml integerToXml
    rw [childText_wrap,
      if_neg (by rw [stringMk_eq_empty]; exact intDigits_ne_nil v)]
    show (match parseIntChars (intDigits v) with
      | some n => ((some n : Option Int), ([] : List LogRec))
      | none => (none, [⟨.warning, String.mk (intDigits v), f.name⟩]))
      = (some v, [])
    rw [parseIntChars_intDigits]
  · intro f v hv
    unfold textFromXml textToXml
    rw [childText_wrap, if_neg hv]
  · intro f v hnd h1 h2 hne
    have hlt : (v - 1).toNat < f.enum.length := by omega
    have hget : f.enum.getD (v - 1).toNat "" = f.enum[(v - 1).toNat] := by
      rw [List.getD_eq_getElem?_getD, List.getElem?_eq_getElem hlt]
      rfl
    have hpy : pyIndex f.enum (v - 1) = some (f.enum[(v - 1).toNat]) := by
      unfold pyIndex
      rw [if_pos (by omega), List.getElem?_eq_getElem hlt]
    unfold enumToXml
    rw [hpy]
    show some (enumFromXml f (wrapParent (mkFieldElem f.uriTail
      f.enum[(v - 1).toNat]))) = some (some v, [])
    unfold enumFromXml
    rw [childText_wrap, if_neg (by rw [← hget]; exact hne)]
    show some (match f.enum.findIdx? (fun s => s = f.enum[(v - 1).toNat]) with
      | some i => ((some ((i : Int) + 1) : Option Int), ([] : List LogRec))
      | none => (none, [⟨.warning, f.enum[(v - 1).toNat], f.name⟩]))
      = some (some v, [])
    rw [findIdxQ_nodup_getElem f.enum (v - 1).toNat hlt hnd]
    show some (some (((v - 1).toNat : Int) + 1), ([] : List LogRec))
      = some (some v, [])
    have hc : (((v - 1).toNat : Int) + 1) = v := by omega
    rw [hc]
  · intro f v hv hb
    unfold base64FromXml base64ToXml
    rw [childText_wrap,
      if_neg (by rw [stringMk_eq_empty]; exact b64encode_ne_nil v hv)]
    show (match b64decode (b64encode v) with
      | some bs => some ((some bs : Option (List Nat)), ([] : List LogRec))
      | none => none)
      = some (some v, [])
    rw [b64decode_encode v hb]
  · intro f dt hm1 hm2 hd1 hd2
    unfold dateFromXml dateToXml
    rw [childText_wrap,
      if_neg (by rw [stringMk_eq_empty]; exact dateText_ne_nil dt)]
    show (match dateParse (String.mk (dateText dt)) with
      | some d => ((some d : Option DateM), ([] : List LogRec))
      | none => (none, [⟨.warning, String.mk (dateText dt), f.name⟩]))
      = (some dt, [])
    have hparse : dateParse (String.mk (dateText dt)) = some dt := by
      unfold dateParse
      show (match splitChar '-' (dateText dt) with
        | [ys, ms, ds] =>
          match parseNatChars ys, parseNatChars ms, parseNatChars ds with
          | some y, some mo, some d =>
            if 1 ≤ mo ∧ mo ≤ 12 ∧ 1 ≤ d ∧ d ≤ 31 then some ⟨y, mo, d⟩ else none
          | _, _, _ => none
        | _ => none) = some dt
      have hsplit : splitChar '-' (dateText dt)
          = [padZeros 4 (natDigits dt.year), padZeros 2 (natDigits dt.month),
             padZeros 2 (natDigits dt.day)] := by
        unfold splitChar dateText
        have hnd : ∀ c ∈ digitChars, c ≠ '-' := by decide
        rw [cgo_sep_char '-' _ _ (fun c hc => hnd c (padZeros_digit 4 dt.year c hc)) []]
        rw [cgo_sep_char '-' _ _ (fun c hc => hnd c (padZeros_digit 2 dt.month c hc)) []]
        rw [cgo_last_char '-' _ (fun c hc => hnd c (padZeros_digit 2 dt.day c hc)) []]
        simp
      rw [hsplit]
      show (match parseNatChars (padZeros 4 (natDigits dt.year)),
          parseNatChars (padZeros 2 (natDigits dt.month)),
          parseNatChars (padZeros 2 (natDigits dt.day)) with
        | some y, some mo, some d =>
          if 1 ≤ mo ∧ mo ≤ 12 ∧ 1 ≤ d ∧ d ≤ 31 then
            some (⟨y, mo, d⟩ : DateM)
          else none
        | _, _, _ => none) = some dt
      rw [parseNatChars_padZeros, parseNatChars_padZeros, parseNatChars_padZeros]
      show (if 1 ≤ dt.month ∧ dt.month ≤ 12 ∧ 1 ≤ dt.day ∧ dt.day ≤ 31 then
        some (⟨dt.year, dt.month, dt.day⟩ : DateM) else none) = some dt
      rw [if_pos ⟨hm1, hm2, hd1, hd2⟩]
    rw [hparse]

theorem C4_witness :
    booleanFromXml { name := "is_read", uriTail := "IsRead", default := none }
      (wrapParent (booleanToXml
        { name := "is_read", uriTail := "IsRead", default := none } true))
      = (some true, [])
    ∧ textFromXml { name := "subject", uriTail := "Subject" }
        (wrapParent (textToXml { name := "subject", uriTail := "Subject" } "hi"))
        = (some "hi", [])
    ∧ base64FromXml { name := "body", uriTail := "MimeContent" }
        (wrapParent (base64ToXml { name := "body", uriTail := "MimeContent" }
          [77, 97, 110]))
        = some (some [77, 97, 110], []) := by
  refine ⟨C4_scalar_roundtrip.1 _ true, ?_, ?_⟩
  · exact C4_scalar_roundtrip.2.2.1 { name := "subject", uriTail := "Subject" }
      "hi" (by decide)
  · exact C4_scalar_roundtrip.2.2.2.2.1 { name := "body", uriTail := "MimeContent" }
      [77, 97, 110] (by decide) (by decide)

theorem C4_counterexample :
    textFromXml { name := "subject", uriTail := "Subject", default := none }
        (wrapParent (textToXml
          { name := "subject", uriTail := "Subject", default := none } ""))
      = (none, [])
    ∧ (none : Option String) ≠ some "" := by
  constructor
  · decide
  · decide

/-! ## C1: unparsable scalar text decodes to None with one warning -/

/-- C1 (amended): for the scalar kinds boolean, integer, enumerated, date and
datetime, when the wire element's text is present but cannot be parsed as the
field's value type, decode returns `None` — the field's default only when that
default is `None` — and emits exactly one diagnostic log record carrying the
raw text and the field name.  The decimal kind is the exception: its inherited
wrapper catches only `ValueError`, while the `Decimal` constructor raises
`decimal.InvalidOperation` (an `ArithmeticError`), so an unparsable decimal
propagates that exception uncaught, with no log record and no `None`. -/
theorem C1_unparsable_scalar_decode :
    (∀ (f : BoolFieldM) (e : XmlElem) (t : String),
      childText f.uriTail e = some t → t ≠ "true" → t ≠ "false" →
      booleanFromXml f e = (none, [⟨.warning, t, f.name⟩]))
    ∧ (∀ (f : IntFieldM) (e : XmlElem) (t : String),
      childText f.uriTail e = some t → parseIntChars t.data = none →
      integerFromXml f e = (none, [⟨.warning, t, f.name⟩]))
    ∧ (∀ (f : EnumFieldM) (e : XmlElem) (t : String),
      childText f.uriTail e = some t → t ∉ f.enum →
      enumFromXml f e = (none, [⟨.warning, t, f.name⟩]))
    ∧ (∀ (f : DateFieldM) (e : XmlElem) (t : String),
      childText f.uriTail e = some t → dateParse t = none →
      dateFromXml f e = (none, [⟨.warning, t, f.name⟩]))
    ∧ (∀ (parse : String → DtParseResult) (tz : String) (f : DateTimeFieldM)
        (e : XmlElem) (t : String),
      childText f.uriTail e = some t → parse t = .fail →
      dateTimeFromXml parse tz f e = (none, [⟨.warning, t, f.name⟩]))
    ∧ (∀ (parse : String → Option DecimalM) (f : DecimalFieldM) (e : XmlElem)
        (t : String),
      childText f.uriTail e = some t → parse t = none →
      decimalFromXml parse f e = .error .invalidOperation) := by
  refine ⟨?_, ?_, ?_, ?_, ?_, ?_⟩
  · intro f e t hct h1 h2
    unfold booleanFromXml
    rw [hct]
    show (if t = "true" then ((some true : Option Bool), ([] : List LogRec))
      else if t = "false" then (some false, [])
      else (none, [⟨.warning, t, f.name⟩])) = (none, [⟨.warning, t, f.name⟩])
    rw [if_neg h1, if_neg h2]
  · intro f e t hct hp
    unfold integerFromXml
    rw [hct]
    show (match parseIntChars t.data with
      | some n => ((some n : Option Int), ([] : List LogRec))
      | none => (none, [⟨.warning, t, f.name⟩])) = (none, [⟨.warning, t, f.name⟩])
    rw [hp]
  · intro f e t hct hmem
    unfold enumFromXml
    rw [hct]
    show (match f.enum.findIdx? (fun s => s = t) with
      | some i => ((some ((i : Int) + 1) : Option Int), ([] : List LogRec))
      | none => (none, [⟨.warning, t, f.name⟩])) = (none, [⟨.warning, t, f.name⟩])
    have hidx : f.enum.findIdx? (fun s => s = t) = none := by
      rw [List.findIdx?_eq_none_iff]
      intro s hs
      rw [decide_eq_false_iff_not]
      intro he
      exact hmem (he ▸ hs)
    rw [hidx]
  · intro f e t hct hp
    unfold dateFromXml
    rw [hct]
    show (match dateParse t with
      | some d => ((some d : Option DateM), ([] : List LogRec))
      | none => (none, [⟨.warning, t, f.name⟩])) = (none, [⟨.warning, t, f.name⟩])
    rw [hp]
  · intro parse tz f e t hct hp
    unfold dateTimeFromXml
    rw [hct]
    show (match parse t with
      | .ok dt => ((some dt : Option EWSDateTimeM), ([] : List LogRec))
      | .naive dt => (some { dt with tz := some tz }, [⟨.information, t, f.name⟩])
      | .fail => (none, [⟨.warning, t, f.name⟩])) = (none, [⟨.warning, t, f.name⟩])
    rw [hp]
  · intro parse f e t hct hp
    unfold decimalFromXml
    rw [hct]
    show (match parse t with
      | some d => Except.ok ((some d : Option DecimalM), ([] : List LogRec))
      | none => Except.error PyExc.invalidOperation)
      = Except.error PyExc.invalidOperation
    rw [hp]

theorem C1_witness :
    booleanFromXml { name := "is_read", uriTail := "IsRead", default := some true }
      (wrapParent (mkFieldElem "IsRead" "xyz"))
      = (none, [⟨.warning, "xyz", "is_read"⟩])
    ∧ decimalFromXml (fun _ => none) { name := "price", uriTail := "Price" }
        (wrapParent (mkFieldElem "Price" "xyz"))
        = .error .invalidOperation :=
  ⟨C1_unparsable_scalar_decode.1
    { name := "is_read", uriTail := "IsRead", default := some true }
    (wrapParent (mkFieldElem "IsRead" "xyz")) "xyz"
    (by decide) (by decide) (by decide),
   C1_unparsable_scalar_decode.2.2.2.2.2 (fun _ => none)
    { name := "price", uriTail := "Price" }
    (wrapParent (mkFieldElem "Price" "xyz")) "xyz"
    (by decide) rfl⟩

theorem C1_counterexample :
    (booleanFromXml { name := "is_read", uriTail := "IsRead", default := some true }
      (wrapParent (mkFieldElem "IsRead" "xyz"))).1 = none
    ∧ (none : Option Bool)
        ≠ BoolFieldM.default
            { name := "is_read", uriTail := "IsRead", default := some true } := by
  constructor
  · decide
  · decide

end Exchangelib
